/-
Verification of the `financial_planning` simulation engine
(`src/financial_planning/financial.py`).

The development shallowly embeds the engine: calendar dates as a structure
ordered lexicographically (as Python `datetime.date` compares), the
`dateutil.relativedelta` month/day decomposition used by `_months_between`,
the compounding rate model, the `FinancialInstrument` / `Asset` / `Liability`
state machines, the cash-handler strategies, and the monthly orchestrator
`process`.  Money values are idealized as real numbers; fallible operations
(Python `assert` / `raise ValueError`) return `Option`.
-/
import Mathlib

namespace FinPlan

/-! ## Calendar dates

Python's `datetime.date`: a (year, month, day) triple, compared
lexicographically.  Validity (month in 1..12, day in 1..days-in-month) is a
separate predicate; Python dates are always valid, so claims quantify over
valid dates. -/

/-- A calendar date, as in Python `datetime.date`. -/
structure Date where
  year : ℤ
  month : ℤ
  day : ℤ
deriving DecidableEq

instance : LT Date :=
  ⟨fun a b => a.year < b.year ∨ (a.year = b.year ∧
    (a.month < b.month ∨ (a.month = b.month ∧ a.day < b.day)))⟩

instance : LE Date := ⟨fun a b => a < b ∨ a = b⟩

theorem Date.lt_def (a b : Date) : a < b ↔ (a.year < b.year ∨ (a.year = b.year ∧
    (a.month < b.month ∨ (a.month = b.month ∧ a.day < b.day)))) := Iff.rfl

theorem Date.le_def (a b : Date) : a ≤ b ↔ (a < b ∨ a = b) := Iff.rfl

instance : DecidableRel (α := Date) (· < ·) := fun a b =>
  decidable_of_iff _ (Date.lt_def a b).symm

instance : DecidableRel (α := Date) (· ≤ ·) := fun a b =>
  decidable_of_iff _ (Date.le_def a b).symm

instance : LinearOrder Date where
  le_refl a := Or.inr rfl
  le_trans a b c hab hbc := by
    cases a; cases b; cases c
    simp only [Date.le_def, Date.lt_def, Date.mk.injEq] at *
    rcases hab with h | h <;> rcases hbc with h' | h' <;> omega
  le_antisymm a b hab hba := by
    cases a; cases b
    simp only [Date.le_def, Date.lt_def, Date.mk.injEq] at *
    omega
  le_total a b := by
    cases a; cases b
    simp only [Date.le_def, Date.lt_def, Date.mk.injEq]
    omega
  lt_iff_le_not_le a b := by
    cases a; cases b
    simp only [Date.le_def, Date.lt_def, Date.mk.injEq]
    omega
  decidableLE := inferInstance
  decidableEq := inferInstance
  decidableLT := inferInstance

/-- Gregorian leap year test (Python `calendar.isleap`). -/
def isLeap (y : ℤ) : Bool :=
  y % 4 == 0 && (y % 100 != 0 || y % 400 == 0)

/-- Number of days in a month of a given year. -/
def daysInMonth (y m : ℤ) : ℤ :=
  if m = 2 then (if isLeap y then 29 else 28)
  else if m = 4 ∨ m = 6 ∨ m = 9 ∨ m = 11 then 30
  else 31

/-- A structurally valid calendar date. -/
def Date.Valid (d : Date) : Prop :=
  1 ≤ d.month ∧ d.month ≤ 12 ∧ 1 ≤ d.day ∧ d.day ≤ daysInMonth d.year d.month

instance (d : Date) : Decidable d.Valid := by unfold Date.Valid; infer_instance

/-- Months elapsed since the epoch month, linearizing (year, month). -/
def monthIndex (d : Date) : ℤ := d.year * 12 + (d.month - 1)

/-- Add `k` calendar months, clamping the day to the end of the target month,
as `dateutil.relativedelta`'s month arithmetic does. -/
def addMonths (d : Date) (k : ℤ) : Date :=
  let t := monthIndex d + k
  let y := t / 12
  let m := t % 12 + 1
  ⟨y, m, min d.day (daysInMonth y m)⟩

/-- Days from the epoch to the start of year `y`
(Python `datetime.date.toordinal`'s year part). -/
def daysBeforeYear (y : ℤ) : ℤ :=
  365 * (y - 1) + (y - 1) / 4 - (y - 1) / 100 + (y - 1) / 400

/-- Days in year `y` before the start of month `m`. -/
def daysBeforeMonth (y m : ℤ) : ℤ :=
  if h : m ≤ 1 then 0 else daysBeforeMonth y (m - 1) + daysInMonth y (m - 1)
termination_by m.toNat
decreasing_by omega

/-- Proleptic-Gregorian ordinal of a date (Python `date.toordinal`);
differences of ordinals are day counts, as in `timedelta.days`. -/
def dayNumber (d : Date) : ℤ :=
  daysBeforeYear d.year + daysBeforeMonth d.year d.month + d.day

/-- Modelled after `dateutil.relativedelta.relativedelta(second, first)`:
the total number of whole calendar months from `first` to `second`.  The
library starts from the raw month-index difference and corrects by at most
one step (its adjustment loop runs at most once), expressed here as a
conditional. -/
def relMonths (first second : Date) : ℤ :=
  let k0 := monthIndex second - monthIndex first
  if second < first then
    (if second ≤ addMonths first k0 then k0 else k0 + 1)
  else
    (if addMonths first k0 ≤ second then k0 else k0 - 1)

/-- `_months_between(first, second)`: whole months plus remaining days divided
by the average month length `365.25 / 12 = 1461 / 48`. -/
def monthsBetween (first second : Date) : ℚ :=
  let k := relMonths first second
  let days := dayNumber second - dayNumber (addMonths first k)
  (k : ℚ) + (days : ℚ) * 48 / 1461

/-- Occurrences of a name in a key list. -/
def countName (n : String) : List String → ℕ
  | [] => 0
  | m :: t => countName n t + (if m = n then 1 else 0)


noncomputable section

/-! ## Rate model (`AnnualFixedRate`) -/

/-- `AnnualFixedRate.multiplier(start_date, date)`: the rate is zeroed when
`date < start_date`; the result is `(1 + rate/12) ^ months_between`. -/
def multiplier (rate : ℝ) (startDate date : Date) : ℝ :=
  let r := if startDate ≤ date then rate else 0
  (1 + r / 12) ^ ((monthsBetween startDate date : ℚ) : ℝ)

/-! ## Cash-flow sources -/

/-- The two `Source` variants of the module: `DateRangeSource` (with optional
end date and growth rate, the constructor default being a zero growth rate)
and `OneTimeSource`. -/
inductive Source where
  | dateRange (initialMonthly : ℝ) (startDate : Date) (endDate : Option Date) (growth : ℝ)
  | oneTime (amount : ℝ) (date : Date)

/-- `Source.monthly_amount(date)`. -/
def Source.monthlyAmount : Source → Date → ℝ
  | .dateRange initialMonthly startDate none growth, d =>
      if d < startDate then 0
      else initialMonthly * multiplier growth startDate d
  | .dateRange initialMonthly startDate (some endDate) growth, d =>
      if d < startDate ∨ endDate < d then 0
      else initialMonthly * multiplier growth startDate d
  | .oneTime amount date, d => if d = date then amount else 0

/-! ## Financial instruments -/

/-- The mutable and immutable fields of a `FinancialInstrument`:
`_start_value`, `_value`, `_start_date`, `_value_date`, and the rate of its
`AnnualFixedRate`. -/
structure Instr where
  startValue : ℝ
  curValue : ℝ
  startDate : Date
  valueDate : Date
  rate : ℝ

/-- `FinancialInstrument.__init__(value, start_date, rate)`. -/
def mkInstr (value : ℝ) (startDate : Date) (rate : ℝ) : Instr :=
  ⟨value, value, startDate, startDate, rate⟩

/-- `FinancialInstrument.reset()`. -/
def Instr.reset (s : Instr) : Instr :=
  { s with curValue := s.startValue, valueDate := s.startDate }

/-- `FinancialInstrument.value(date)`; `none` models the
`ValueError` raised for a query before the previous query date. -/
def Instr.value (s : Instr) (date : Date) : Option ℝ :=
  if date < s.startDate then some 0
  else if date < s.valueDate then none
  else if date = s.valueDate then some s.curValue
  else some (s.curValue * multiplier s.rate s.valueDate date)

/-- `FinancialInstrument._transact(amount, date)`. -/
def Instr.transactPriv (s : Instr) (amount : ℝ) (date : Date) : Option Instr :=
  (s.value date).map fun v => { s with curValue := v + amount, valueDate := date }

/-- `Asset.transact(amount, date)`: clamps a withdrawal to the available
value and returns the unmet remainder together with the new state. -/
def Asset.transact (s : Instr) (amount : ℝ) (date : Date) : Option (ℝ × Instr) :=
  if amount < 0 then
    (s.value date).bind fun v =>
      let canWithdraw := max (-v) amount
      let remainder := amount - canWithdraw
      (s.transactPriv canWithdraw date).map fun s2 => (remainder, s2)
  else
    (s.transactPriv amount date).map fun s2 => ((0 : ℝ), s2)

/-- `_minimum_payment(principal, interval_rate, remaining_intervals)`:
the standard amortization payment. -/
def minimumPayment (principal intervalRate : ℝ) (remainingIntervals : ℕ) : ℝ :=
  if intervalRate = 0 then -principal / remainingIntervals
  else -principal * intervalRate * (1 + intervalRate) ^ remainingIntervals /
    ((1 + intervalRate) ^ remainingIntervals - 1)

/-- A `Liability`: the underlying instrument plus the fields fixed at
construction (`_end_date`, `_minimum_monthly`). -/
structure Liability where
  instr : Instr
  endDate : Date
  minFixed : ℝ

/-- `Liability.__init__(value, start_date, duration_months, rate)`. -/
def mkLiability (value : ℝ) (startDate : Date) (durationMonths : ℕ) (rate : ℝ) :
    Liability :=
  ⟨mkInstr value startDate rate, addMonths startDate durationMonths,
    minimumPayment value (rate / 12) durationMonths⟩

/-- `Liability.reset()` (inherited from `FinancialInstrument`). -/
def Liability.reset (l : Liability) : Liability :=
  { l with instr := l.instr.reset }

/-- `Liability.minimum_monthly(date) = min(self._minimum_monthly, -self.value(date))`. -/
def Liability.minimumMonthly (l : Liability) (date : Date) : Option ℝ :=
  (l.instr.value date).map fun v => min l.minFixed (-v)

/-- `Liability.make_payment(payment, date)`; `none` models the failed
`assert payment >= 0.0` and the cursor `ValueError`. -/
def Liability.makePayment (l : Liability) (payment : ℝ) (date : Date) :
    Option (ℝ × Liability) :=
  if payment < 0 then none
  else if date < l.instr.startDate then some (payment, l)
  else (l.instr.value date).bind fun v =>
    let actualPayment := min (-v) payment
    (l.instr.transactPriv actualPayment date).map fun s2 =>
      (payment - actualPayment, { l with instr := s2 })

/-! ## Cash handlers

Asset objects are Python references; they are modelled by a store
`ℕ → Instr` indexed by object identity, so that a handler and the `assets`
mapping given to `process` may or may not point at the same object. -/

/-- The three `CashHandler` variants: `BasicCashHandler`,
`MaxValueCashHandler`, `SequentialCashHandler`. -/
inductive CashHandler where
  | basic (assetId : ℕ)
  | maxValue (assetId : ℕ) (maxVal : ℝ)
  | sequential (handlers : List CashHandler)

mutual

/-- `CashHandler.handle_cash(cash, date)` acting on the asset store. -/
def handleCash : CashHandler → (ℕ → Instr) → ℝ → Date → Option (ℝ × (ℕ → Instr))
  | .basic a, σ, cash, d =>
      (Asset.transact (σ a) cash d).map fun rs => (rs.1, Function.update σ a rs.2)
  | .maxValue a maxVal, σ, cash, d =>
      (if 0 < cash then
        ((σ a).value d).map fun v =>
          let canContribute := max 0 (maxVal - v)
          let contribution := min canContribute cash
          (contribution, cash - contribution)
      else some (cash, (0 : ℝ))).bind fun cr =>
        (Asset.transact (σ a) cr.1 d).map fun rs =>
          (rs.1 + cr.2, Function.update σ a rs.2)
  | .sequential hs, σ, cash, d => handleCashList hs σ cash d

/-- `SequentialCashHandler.handle_cash`: fold the remainder through the list. -/
def handleCashList : List CashHandler → (ℕ → Instr) → ℝ → Date → Option (ℝ × (ℕ → Instr))
  | [], σ, cash, _ => some (cash, σ)
  | h :: t, σ, cash, d =>
      (handleCash h σ cash d).bind fun rs => handleCashList t rs.2 rs.1 d

end

mutual

/-- The asset object identities a handler can touch. -/
def handlerIds : CashHandler → List ℕ
  | .basic a => [a]
  | .maxValue a _ => [a]
  | .sequential hs => handlerIdsList hs

/-- Identities touched by a list of handlers. -/
def handlerIdsList : List CashHandler → List ℕ
  | [] => []
  | h :: t => handlerIds h ++ handlerIdsList t

end

/-- The asset object identities an optional handler can touch. -/
def optHandlerIds : Option CashHandler → List ℕ
  | none => []
  | some h => handlerIds h

/-! ## Output and the orchestrator -/

/-- The `Output` dataclass.  The per-category `defaultdict(list)` dictionaries
are modelled as total functions defaulting to `[]`. -/
structure Output where
  incomes : String → List ℝ
  incomesTotal : List ℝ
  expenses : String → List ℝ
  expensesTotal : List ℝ
  liabilities : String → List ℝ
  liabilitiesTotal : List ℝ
  assets : String → List ℝ
  assetsTotal : List ℝ
  cashflow : List ℝ
  cashBalance : List ℝ
  netWorth : List ℝ

/-- A freshly constructed `Output()`. -/
def emptyOutput : Output :=
  ⟨fun _ => [], [], fun _ => [], [], fun _ => [], [], fun _ => [], [], [], [], []⟩

/-- `output.d[name].append(x)` for a per-category dictionary `d`. -/
def appendAt (f : String → List ℝ) (name : String) (x : ℝ) : String → List ℝ :=
  Function.update f name (f name ++ [x])

/-- The state threaded through `process`: the two object stores, the output
under construction, and the running cash balance. -/
structure PState where
  assetStore : ℕ → Instr
  liabStore : ℕ → Liability
  out : Output
  cashBalance : ℝ

/-- The income loop of `process` (with its `assert amount >= 0`). -/
def incomesStep : List (String × Source) → Date → Output → ℝ → ℝ →
    Option (Output × ℝ × ℝ)
  | [], _, out, cash, total => some (out, cash, total)
  | (name, income) :: rest, d, out, cash, total =>
      let amount := income.monthlyAmount d
      if 0 ≤ amount then
        incomesStep rest d { out with incomes := appendAt out.incomes name amount }
          (cash + amount) (total + amount)
      else none

/-- The expense loop of `process` (with its `assert amount <= 0`). -/
def expensesStep : List (String × Source) → Date → Output → ℝ → ℝ →
    Option (Output × ℝ × ℝ)
  | [], _, out, cash, total => some (out, cash, total)
  | (name, expense) :: rest, d, out, cash, total =>
      let amount := expense.monthlyAmount d
      if amount ≤ 0 then
        expensesStep rest d { out with expenses := appendAt out.expenses name amount }
          (cash + amount) (total + amount)
      else none

/-- The loan-minimum-payment loop of `process`: pays each liability's
monthly minimum and records the actual payment as a negative expense. -/
def liabPayStep : List (String × ℕ) → Date → (ℕ → Liability) → Output → ℝ → ℝ →
    Option ((ℕ → Liability) × Output × ℝ × ℝ)
  | [], _, σl, out, cash, total => some (σl, out, cash, total)
  | (name, lid) :: rest, d, σl, out, cash, total =>
      ((σl lid).minimumMonthly d).bind fun targetPayment =>
        ((σl lid).makePayment targetPayment d).bind fun rl =>
          let payment := targetPayment - rl.1
          if 0 ≤ payment then
            liabPayStep rest d (Function.update σl lid rl.2)
              { out with expenses := appendAt out.expenses name (-payment) }
              (cash - payment) (total - payment)
          else none

/-- The liability read-back loop of `process` (with `assert value <= 0`). -/
def liabReadStep : List (String × ℕ) → Date → (ℕ → Liability) → Output → ℝ →
    Option (Output × ℝ)
  | [], _, _, out, total => some (out, total)
  | (name, lid) :: rest, d, σl, out, total =>
      ((σl lid).instr.value d).bind fun v =>
        if v ≤ 0 then
          liabReadStep rest d σl
            { out with liabilities := appendAt out.liabilities name v } (total + v)
        else none

/-- The asset read-back loop of `process` (with `assert value >= 0`). -/
def assetReadStep : List (String × ℕ) → Date → (ℕ → Instr) → Output → ℝ →
    Option (Output × ℝ)
  | [], _, _, out, total => some (out, total)
  | (name, aid) :: rest, d, σa, out, total =>
      ((σa aid).value d).bind fun v =>
        if 0 ≤ v then
          assetReadStep rest d σa
            { out with assets := appendAt out.assets name v } (total + v)
        else none

/-- The overdraft-recovery step of `process` (lines applying positive monthly
cash to a negative carried balance first).  Returns the remaining cash to
route and the updated cash balance. -/
def overdraftRecovery (cash cashBalance : ℝ) : ℝ × ℝ :=
  if 0 < cash ∧ cashBalance < 0 then
    let remainder := max 0 (cash + cashBalance)
    (remainder, cashBalance + (cash - remainder))
  else (cash, cashBalance)

/-- One iteration of the `for date in dates` loop of `process`.  The
`Option.bind` chain propagates any assertion or cursor failure, exactly as a
Python exception would abort the whole call. -/
def processDate (incomes expenses : List (String × Source))
    (liabs assets : List (String × ℕ)) (handler : Option CashHandler)
    (st : PState) (d : Date) : Option PState :=
  (incomesStep incomes d st.out 0 0).bind fun a =>
    let out2 := { a.1 with incomesTotal := a.1.incomesTotal ++ [a.2.2] }
    (expensesStep expenses d out2 a.2.1 0).bind fun b =>
      (liabPayStep liabs d st.liabStore b.1 b.2.1 b.2.2).bind fun c =>
        let out5 := { c.2.1 with expensesTotal := c.2.1.expensesTotal ++ [c.2.2.2],
                                 cashflow := c.2.1.cashflow ++ [c.2.2.1] }
        let rec1 := overdraftRecovery c.2.2.1 st.cashBalance
        (match handler with
          | none => some (rec1.1, st.assetStore)
          | some hh => handleCash hh st.assetStore rec1.1 d).bind fun e =>
          let cb2 := rec1.2 + e.1
          let out6 := { out5 with cashBalance := out5.cashBalance ++ [cb2] }
          (liabReadStep liabs d c.1 out6 0).bind fun f =>
            let out8 := { f.1 with liabilitiesTotal := f.1.liabilitiesTotal ++ [f.2] }
            (assetReadStep assets d e.2 out8 0).bind fun g =>
              some ⟨e.2, c.1,
                { g.1 with assetsTotal := g.1.assetsTotal ++ [g.2],
                           netWorth := g.1.netWorth ++ [g.2 + f.2 + cb2] },
                cb2⟩

/-- The date loop of `process`. -/
def processLoop (incomes expenses : List (String × Source))
    (liabs assets : List (String × ℕ)) (handler : Option CashHandler) :
    List Date → PState → Option PState
  | [], st => some st
  | d :: ds, st =>
      (processDate incomes expenses liabs assets handler st d).bind
        (processLoop incomes expenses liabs assets handler ds)

/-- The reset pass of `process` over one of its instrument mappings. -/
def resetLiabs (liabs : List (String × ℕ)) (σl : ℕ → Liability) : ℕ → Liability :=
  liabs.foldl (fun σ p => Function.update σ p.2 ((σ p.2).reset)) σl

/-- The reset pass of `process` over the assets mapping. -/
def resetAssets (assets : List (String × ℕ)) (σa : ℕ → Instr) : ℕ → Instr :=
  assets.foldl (fun σ p => Function.update σ p.2 ((σ p.2).reset)) σa

/-- `process(dates, incomes, expenses, liabilities, assets, cash_handler)`.
Dictionaries are association lists (Python dictionaries preserve insertion
order and have distinct keys); instrument objects live in the two stores. -/
def process (dates : List Date) (incomes expenses : List (String × Source))
    (liabs assets : List (String × ℕ)) (handler : Option CashHandler)
    (σa : ℕ → Instr) (σl : ℕ → Liability) : Option PState :=
  processLoop incomes expenses liabs assets handler dates
    ⟨resetAssets assets σa, resetLiabs liabs σl, emptyOutput, 0⟩

/-! ## Reachable instrument states -/

/-- Asset states reachable from `a0` by a monotone sequence of successful
`transact` calls (each at a date not before the cursor). -/
inductive AssetReaches (a0 : Instr) : Instr → Prop where
  | refl : AssetReaches a0 a0
  | step {s s2 : Instr} {amount r : ℝ} {d : Date} :
      AssetReaches a0 s → s.valueDate ≤ d →
      Asset.transact s amount d = some (r, s2) → AssetReaches a0 s2

/-- Liability states reachable from `l0` by successful `make_payment` calls. -/
inductive LiabReaches (l0 : Liability) : Liability → Prop where
  | refl : LiabReaches l0 l0
  | step {l l2 : Liability} {p r : ℝ} {d : Date} :
      LiabReaches l0 l → l.makePayment p d = some (r, l2) → LiabReaches l0 l2

/-! ## Immutable-field tracking (used for the re-run claim) -/

/-- Two instrument states with the same construction-time fields. -/
def Instr.sameSpec (s t : Instr) : Prop :=
  s.startValue = t.startValue ∧ s.startDate = t.startDate ∧ s.rate = t.rate

/-- Two liability states with the same construction-time fields. -/
def Liability.sameSpec (l m : Liability) : Prop :=
  l.instr.sameSpec m.instr ∧ l.endDate = m.endDate ∧ l.minFixed = m.minFixed

/-- The final state of the witness run for the amended re-run claim. -/
noncomputable def c2wstate : PState :=
  ⟨fun _ => mkInstr 0 ⟨2020,1,1⟩ 0, fun _ => mkLiability (-1) ⟨2020,1,1⟩ 1 0,
   ⟨Function.update (fun _ => []) "i" [100], [100], fun _ => [], [0], fun _ => [], [0],
    fun _ => [], [0], [100], [100], [100]⟩, 100⟩

/-- Helper for the zero-rate amortization run: pay the monthly minimum at
each date in turn, collecting the minimums charged. -/
def payMinTrace : List Date → Liability → Option (List ℝ × Liability)
  | [], l => some ([], l)
  | d :: ds, l =>
      (l.minimumMonthly d).bind fun m =>
        (l.makePayment m d).bind fun rl =>
          (payMinTrace ds rl.2).map fun p => (m :: p.1, p.2)

end


/-! # Helper lemmas and claim theorems -/

lemma daysInMonth_pos (y m : ℤ) : 1 ≤ daysInMonth y m := by
  unfold daysInMonth; split_ifs <;> norm_num

lemma daysInMonth_le (y m : ℤ) : daysInMonth y m ≤ 31 := by
  unfold daysInMonth; split_ifs <;> norm_num

lemma addMonths_monthIndex (d : Date) (k : ℤ) :
    monthIndex (addMonths d k) = monthIndex d + k := by
  unfold addMonths monthIndex
  simp only
  omega

lemma addMonths_valid {d : Date} (hd : d.Valid) (k : ℤ) : (addMonths d k).Valid := by
  obtain ⟨h1, h2, h3, h4⟩ := hd
  unfold addMonths Date.Valid
  simp only
  refine ⟨by omega, by omega, le_min h3 (daysInMonth_pos _ _), min_le_right _ _⟩

lemma lt_of_monthIndex_lt {a b : Date} (ha : a.Valid) (hb : b.Valid)
    (h : monthIndex a < monthIndex b) : a < b := by
  rw [Date.lt_def]
  unfold monthIndex at h
  obtain ⟨ha1, ha2, _, _⟩ := ha
  obtain ⟨hb1, hb2, _, _⟩ := hb
  omega

lemma monthIndex_le_of_le {a b : Date} (ha : a.Valid) (hb : b.Valid) (h : a ≤ b) :
    monthIndex a ≤ monthIndex b := by
  rcases (Date.le_def a b).1 h with hlt | rfl
  · rw [Date.lt_def] at hlt
    unfold monthIndex
    obtain ⟨ha1, ha2, _, _⟩ := ha
    obtain ⟨hb1, hb2, _, _⟩ := hb
    omega
  · exact le_refl _

lemma addMonths_lt_addMonths {d : Date} (hd : d.Valid) {k1 k2 : ℤ} (h : k1 < k2) :
    addMonths d k1 < addMonths d k2 :=
  lt_of_monthIndex_lt (addMonths_valid hd _) (addMonths_valid hd _)
    (by rw [addMonths_monthIndex, addMonths_monthIndex]; omega)

lemma addMonths_le_addMonths {d : Date} (hd : d.Valid) {k1 k2 : ℤ} (h : k1 ≤ k2) :
    addMonths d k1 ≤ addMonths d k2 := by
  rcases eq_or_lt_of_le h with rfl | hlt
  · exact le_refl _
  · exact le_of_lt (addMonths_lt_addMonths hd hlt)

lemma addMonths_zero {d : Date} (hd : d.Valid) : addMonths d 0 = d := by
  cases d with
  | mk y m dd =>
    obtain ⟨h1, h2, h3, h4⟩ := hd
    dsimp only at h1 h2 h3 h4
    unfold addMonths monthIndex
    simp only [Date.mk.injEq]
    have hy : (y * 12 + (m - 1) + 0) / 12 = y := by omega
    have hm : (y * 12 + (m - 1) + 0) % 12 + 1 = m := by omega
    refine ⟨hy, hm, ?_⟩
    rw [hy, hm]
    exact min_eq_left h4



lemma daysBeforeMonth_of_le_one (y m : ℤ) (h : m ≤ 1) : daysBeforeMonth y m = 0 := by
  rw [daysBeforeMonth, dif_pos h]

lemma daysBeforeMonth_succ (y m : ℤ) (h : 1 ≤ m) :
    daysBeforeMonth y (m + 1) = daysBeforeMonth y m + daysInMonth y m := by
  rw [daysBeforeMonth, dif_neg (by omega)]
  norm_num

lemma daysBeforeMonth_mono (y : ℤ) {m1 m2 : ℤ} (h : m1 ≤ m2) :
    daysBeforeMonth y m1 ≤ daysBeforeMonth y m2 := by
  refine Int.le_induction (P := fun m => daysBeforeMonth y m1 ≤ daysBeforeMonth y m)
    (le_refl _) ?_ m2 h
  intro n hn ih
  rcases le_or_lt n 0 with hn0 | hn0
  · rw [daysBeforeMonth_of_le_one y (n+1) (by omega),
      daysBeforeMonth_of_le_one y m1 (by omega)]
  · rw [daysBeforeMonth_succ y n (by omega)]
    have := daysInMonth_pos y n
    omega

lemma daysBeforeMonth_nonneg (y m : ℤ) : 0 ≤ daysBeforeMonth y m := by
  rcases le_or_lt m 1 with h | h
  · rw [daysBeforeMonth_of_le_one y m h]
  · calc (0:ℤ) = daysBeforeMonth y 1 := (daysBeforeMonth_of_le_one y 1 (le_refl 1)).symm
      _ ≤ daysBeforeMonth y m := daysBeforeMonth_mono y (by omega)

lemma daysBeforeMonth_thirteen (y : ℤ) :
    daysBeforeMonth y 13 = 365 + (if isLeap y then 1 else 0) := by
  have s : ∀ m : ℤ, 1 ≤ m → daysBeforeMonth y (m + 1) = daysBeforeMonth y m + daysInMonth y m :=
    daysBeforeMonth_succ y
  cases h : isLeap y with
  | false =>
    have c1 : daysBeforeMonth y 1 = 0 := daysBeforeMonth_of_le_one y 1 (le_refl 1)
    have c2 : daysBeforeMonth y 2 = 31 := by
      rw [show (2:ℤ) = 1 + 1 by norm_num, s 1 (by norm_num), c1]
      norm_num [daysInMonth, h]
    have c3 : daysBeforeMonth y 3 = 59 := by
      rw [show (3:ℤ) = 2 + 1 by norm_num, s 2 (by norm_num), c2]
      norm_num [daysInMonth, h]
    have c4 : daysBeforeMonth y 4 = 90 := by
      rw [show (4:ℤ) = 3 + 1 by norm_num, s 3 (by norm_num), c3]
      norm_num [daysInMonth, h]
    have c5 : daysBeforeMonth y 5 = 120 := by
      rw [show (5:ℤ) = 4 + 1 by norm_num, s 4 (by norm_num), c4]
      norm_num [daysInMonth, h]
    have c6 : daysBeforeMonth y 6 = 151 := by
      rw [show (6:ℤ) = 5 + 1 by norm_num, s 5 (by norm_num), c5]
      norm_num [daysInMonth, h]
    have c7 : daysBeforeMonth y 7 = 181 := by
      rw [show (7:ℤ) = 6 + 1 by norm_num, s 6 (by norm_num), c6]
      norm_num [daysInMonth, h]
    have c8 : daysBeforeMonth y 8 = 212 := by
      rw [show (8:ℤ) = 7 + 1 by norm_num, s 7 (by norm_num), c7]
      norm_num [daysInMonth, h]
    have c9 : daysBeforeMonth y 9 = 243 := by
      rw [show (9:ℤ) = 8 + 1 by norm_num, s 8 (by norm_num), c8]
      norm_num [daysInMonth, h]
    have c10 : daysBeforeMonth y 10 = 273 := by
      rw [show (10:ℤ) = 9 + 1 by norm_num, s 9 (by norm_num), c9]
      norm_num [daysInMonth, h]
    have c11 : daysBeforeMonth y 11 = 304 := by
      rw [show (11:ℤ) = 10 + 1 by norm_num, s 10 (by norm_num), c10]
      norm_num [daysInMonth, h]
    have c12 : daysBeforeMonth y 12 = 334 := by
      rw [show (12:ℤ) = 11 + 1 by norm_num, s 11 (by norm_num), c11]
      norm_num [daysInMonth, h]
    have c13 : daysBeforeMonth y 13 = 365 := by
      rw [show (13:ℤ) = 12 + 1 by norm_num, s 12 (by norm_num), c12]
      norm_num [daysInMonth, h]
    rw [c13]
    simp [h]
  | true =>
    have c1 : daysBeforeMonth y 1 = 0 := daysBeforeMonth_of_le_one y 1 (le_refl 1)
    have c2 : daysBeforeMonth y 2 = 31 := by
      rw [show (2:ℤ) = 1 + 1 by norm_num, s 1 (by norm_num), c1]
      norm_num [daysInMonth, h]
    have c3 : daysBeforeMonth y 3 = 60 := by
      rw [show (3:ℤ) = 2 + 1 by norm_num, s 2 (by norm_num), c2]
      norm_num [daysInMonth, h]
    have c4 : daysBeforeMonth y 4 = 91 := by
      rw [show (4:ℤ) = 3 + 1 by norm_num, s 3 (by norm_num), c3]
      norm_num [daysInMonth, h]
    have c5 : daysBeforeMonth y 5 = 121 := by
      rw [show (5:ℤ) = 4 + 1 by norm_num, s 4 (by norm_num), c4]
      norm_num [daysInMonth, h]
    have c6 : daysBeforeMonth y 6 = 152 := by
      rw [show (6:ℤ) = 5 + 1 by norm_num, s 5 (by norm_num), c5]
      norm_num [daysInMonth, h]
    have c7 : daysBeforeMonth y 7 = 182 := by
      rw [show (7:ℤ) = 6 + 1 by norm_num, s 6 (by norm_num), c6]
      norm_num [daysInMonth, h]
    have c8 : daysBeforeMonth y 8 = 213 := by
      rw [show (8:ℤ) = 7 + 1 by norm_num, s 7 (by norm_num), c7]
      norm_num [daysInMonth, h]
    have c9 : daysBeforeMonth y 9 = 244 := by
      rw [show (9:ℤ) = 8 + 1 by norm_num, s 8 (by norm_num), c8]
      norm_num [daysInMonth, h]
    have c10 : daysBeforeMonth y 10 = 274 := by
      rw [show (10:ℤ) = 9 + 1 by norm_num, s 9 (by norm_num), c9]
      norm_num [daysInMonth, h]
    have c11 : daysBeforeMonth y 11 = 305 := by
      rw [show (11:ℤ) = 10 + 1 by norm_num, s 10 (by norm_num), c10]
      norm_num [daysInMonth, h]
    have c12 : daysBeforeMonth y 12 = 335 := by
      rw [show (12:ℤ) = 11 + 1 by norm_num, s 11 (by norm_num), c11]
      norm_num [daysInMonth, h]
    have c13 : daysBeforeMonth y 13 = 366 := by
      rw [show (13:ℤ) = 12 + 1 by norm_num, s 12 (by norm_num), c12]
      norm_num [daysInMonth, h]
    rw [c13]
    simp [h]


lemma daysBeforeMonth_twelve (y : ℤ) :
    daysBeforeMonth y 12 = 334 + (if isLeap y then 1 else 0) := by
  have s : ∀ m : ℤ, 1 ≤ m → daysBeforeMonth y (m + 1) = daysBeforeMonth y m + daysInMonth y m :=
    daysBeforeMonth_succ y
  cases h : isLeap y with
  | false =>
    have c1 : daysBeforeMonth y 1 = 0 := daysBeforeMonth_of_le_one y 1 (le_refl 1)
    have c2 : daysBeforeMonth y 2 = 31 := by
      rw [show (2:ℤ) = 1 + 1 by norm_num, s 1 (by norm_num), c1]
      norm_num [daysInMonth, h]
    have c3 : daysBeforeMonth y 3 = 59 := by
      rw [show (3:ℤ) = 2 + 1 by norm_num, s 2 (by norm_num), c2]
      norm_num [daysInMonth, h]
    have c4 : daysBeforeMonth y 4 = 90 := by
      rw [show (4:ℤ) = 3 + 1 by norm_num, s 3 (by norm_num), c3]
      norm_num [daysInMonth, h]
    have c5 : daysBeforeMonth y 5 = 120 := by
      rw [show (5:ℤ) = 4 + 1 by norm_num, s 4 (by norm_num), c4]
      norm_num [daysInMonth, h]
    have c6 : daysBeforeMonth y 6 = 151 := by
      rw [show (6:ℤ) = 5 + 1 by norm_num, s 5 (by norm_num), c5]
      norm_num [daysInMonth, h]
    have c7 : daysBeforeMonth y 7 = 181 := by
      rw [show (7:ℤ) = 6 + 1 by norm_num, s 6 (by norm_num), c6]
      norm_num [daysInMonth, h]
    have c8 : daysBeforeMonth y 8 = 212 := by
      rw [show (8:ℤ) = 7 + 1 by norm_num, s 7 (by norm_num), c7]
      norm_num [daysInMonth, h]
    have c9 : daysBeforeMonth y 9 = 243 := by
      rw [show (9:ℤ) = 8 + 1 by norm_num, s 8 (by norm_num), c8]
      norm_num [daysInMonth, h]
    have c10 : daysBeforeMonth y 10 = 273 := by
      rw [show (10:ℤ) = 9 + 1 by norm_num, s 9 (by norm_num), c9]
      norm_num [daysInMonth, h]
    have c11 : daysBeforeMonth y 11 = 304 := by
      rw [show (11:ℤ) = 10 + 1 by norm_num, s 10 (by norm_num), c10]
      norm_num [daysInMonth, h]
    have c12 : daysBeforeMonth y 12 = 334 := by
      rw [show (12:ℤ) = 11 + 1 by norm_num, s 11 (by norm_num), c11]
      norm_num [daysInMonth, h]
    rw [c12]
    simp [h]
  | true =>
    have c1 : daysBeforeMonth y 1 = 0 := daysBeforeMonth_of_le_one y 1 (le_refl 1)
    have c2 : daysBeforeMonth y 2 = 31 := by
      rw [show (2:ℤ) = 1 + 1 by norm_num, s 1 (by norm_num), c1]
      norm_num [daysInMonth, h]
    have c3 : daysBeforeMonth y 3 = 60 := by
      rw [show (3:ℤ) = 2 + 1 by norm_num, s 2 (by norm_num), c2]
      norm_num [daysInMonth, h]
    have c4 : daysBeforeMonth y 4 = 91 := by
      rw [show (4:ℤ) = 3 + 1 by norm_num, s 3 (by norm_num), c3]
      norm_num [daysInMonth, h]
    have c5 : daysBeforeMonth y 5 = 121 := by
      rw [show (5:ℤ) = 4 + 1 by norm_num, s 4 (by norm_num), c4]
      norm_num [daysInMonth, h]
    have c6 : daysBeforeMonth y 6 = 152 := by
      rw [show (6:ℤ) = 5 + 1 by norm_num, s 5 (by norm_num), c5]
      norm_num [daysInMonth, h]
    have c7 : daysBeforeMonth y 7 = 182 := by
      rw [show (7:ℤ) = 6 + 1 by norm_num, s 6 (by norm_num), c6]
      norm_num [daysInMonth, h]
    have c8 : daysBeforeMonth y 8 = 213 := by
      rw [show (8:ℤ) = 7 + 1 by norm_num, s 7 (by norm_num), c7]
      norm_num [daysInMonth, h]
    have c9 : daysBeforeMonth y 9 = 244 := by
      rw [show (9:ℤ) = 8 + 1 by norm_num, s 8 (by norm_num), c8]
      norm_num [daysInMonth, h]
    have c10 : daysBeforeMonth y 10 = 274 := by
      rw [show (10:ℤ) = 9 + 1 by norm_num, s 9 (by norm_num), c9]
      norm_num [daysInMonth, h]
    have c11 : daysBeforeMonth y 11 = 305 := by
      rw [show (11:ℤ) = 10 + 1 by norm_num, s 10 (by norm_num), c10]
      norm_num [daysInMonth, h]
    have c12 : daysBeforeMonth y 12 = 335 := by
      rw [show (12:ℤ) = 11 + 1 by norm_num, s 11 (by norm_num), c11]
      norm_num [daysInMonth, h]
    rw [c12]
    simp [h]

lemma daysBeforeYear_succ (y : ℤ) :
    daysBeforeYear (y + 1) = daysBeforeYear y + 365 + (if isLeap y then 1 else 0) := by
  unfold daysBeforeYear
  by_cases h : isLeap y = true
  · rw [if_pos h]
    simp only [isLeap, Bool.and_eq_true, beq_iff_eq, Bool.or_eq_true, bne_iff_ne, ne_eq] at h
    omega
  · rw [if_neg h]
    simp only [isLeap, Bool.and_eq_true, beq_iff_eq, Bool.or_eq_true, bne_iff_ne, ne_eq] at h
    omega

lemma daysBeforeYear_mono {y1 y2 : ℤ} (h : y1 ≤ y2) :
    daysBeforeYear y1 ≤ daysBeforeYear y2 := by
  refine Int.le_induction (P := fun y => daysBeforeYear y1 ≤ daysBeforeYear y)
    (le_refl _) ?_ y2 h
  intro n hn ih
  rw [daysBeforeYear_succ n]
  split_ifs <;> omega


lemma dayNumber_lower {d : Date} (hd : d.Valid) :
    daysBeforeYear d.year + 1 ≤ dayNumber d := by
  obtain ⟨h1, h2, h3, h4⟩ := hd
  have := daysBeforeMonth_nonneg d.year d.month
  unfold dayNumber
  omega

lemma dayNumber_upper {d : Date} (hd : d.Valid) :
    dayNumber d ≤ daysBeforeYear (d.year + 1) := by
  obtain ⟨h1, h2, h3, h4⟩ := hd
  have hstep : daysBeforeMonth d.year d.month + d.day ≤ daysBeforeMonth d.year (d.month + 1) := by
    rw [daysBeforeMonth_succ d.year d.month h1]
    omega
  have hmono : daysBeforeMonth d.year (d.month + 1) ≤ daysBeforeMonth d.year 13 :=
    daysBeforeMonth_mono d.year (by omega)
  have h13 := daysBeforeMonth_thirteen d.year
  have hy := daysBeforeYear_succ d.year
  unfold dayNumber
  split_ifs at h13 hy <;> omega

lemma dayNumber_lt_of_lt {a b : Date} (ha : a.Valid) (hb : b.Valid) (h : a < b) :
    dayNumber a < dayNumber b := by
  rcases (Date.lt_def a b).1 h with hy | ⟨hy, hrest⟩
  · have h1 : dayNumber a ≤ daysBeforeYear (a.year + 1) := dayNumber_upper ha
    have h2 : daysBeforeYear (a.year + 1) ≤ daysBeforeYear b.year := daysBeforeYear_mono (by omega)
    have h3 : daysBeforeYear b.year + 1 ≤ dayNumber b := dayNumber_lower hb
    omega
  · obtain ⟨ha1, ha2, ha3, ha4⟩ := ha
    obtain ⟨hb1, hb2, hb3, hb4⟩ := hb
    unfold dayNumber
    rw [hy]
    rcases hrest with hm | ⟨hm, hday⟩
    · have hstep : daysBeforeMonth b.year a.month + a.day ≤ daysBeforeMonth b.year (a.month + 1) := by
        rw [daysBeforeMonth_succ b.year a.month ha1]
        rw [hy] at ha4
        omega
      have hmono : daysBeforeMonth b.year (a.month + 1) ≤ daysBeforeMonth b.year b.month :=
        daysBeforeMonth_mono b.year (by omega)
      omega
    · rw [hm]
      omega

lemma dayNumber_le_of_le {a b : Date} (ha : a.Valid) (hb : b.Valid) (h : a ≤ b) :
    dayNumber a ≤ dayNumber b := by
  rcases (Date.le_def a b).1 h with hlt | rfl
  · exact le_of_lt (dayNumber_lt_of_lt ha hb hlt)
  · exact le_refl _

lemma dayNumber_addMonths_succ (d : Date) (k : ℤ) :
    dayNumber (addMonths d (k + 1)) ≤ dayNumber (addMonths d k) + 31 := by
  unfold addMonths dayNumber monthIndex
  simp only
  have hsplit : (d.year * 12 + (d.month - 1) + (k + 1)) = (d.year * 12 + (d.month - 1) + k) + 1 := by
    ring
  rw [hsplit]
  set t := d.year * 12 + (d.month - 1) + k with ht
  rcases le_or_lt (t % 12) 10 with hr | hr
  · have hq : (t + 1) / 12 = t / 12 := by omega
    have hm : (t + 1) % 12 = t % 12 + 1 := by omega
    rw [hq, hm]
    have hsucc := daysBeforeMonth_succ (t / 12) (t % 12 + 1) (by omega)
    have hd1 := daysInMonth_le (t / 12) (t % 12 + 1)
    have hd2 := daysInMonth_le (t / 12) (t % 12 + 1 + 1)
    have hmin1 := min_le_left d.day (daysInMonth (t / 12) (t % 12 + 1 + 1))
    have hmin2 := min_le_right d.day (daysInMonth (t / 12) (t % 12 + 1 + 1))
    rcases le_total d.day (daysInMonth (t / 12) (t % 12 + 1)) with hc | hc
    · rw [min_eq_left hc]
      omega
    · rw [min_eq_right hc]
      omega
  · have hr12 : t % 12 = 11 := by omega
    have hq : (t + 1) / 12 = t / 12 + 1 := by omega
    have hm : (t + 1) % 12 = 0 := by omega
    rw [hq, hm, hr12]
    norm_num
    have h1 : daysBeforeMonth (t / 12 + 1) 1 = 0 := daysBeforeMonth_of_le_one _ 1 (le_refl 1)
    have h2 := daysBeforeMonth_twelve (t / 12)
    have h3 := daysBeforeYear_succ (t / 12)
    have h4 : daysInMonth (t / 12 + 1) 1 = 31 := by norm_num [daysInMonth]
    have h5 : daysInMonth (t / 12) 12 = 31 := by norm_num [daysInMonth]
    rw [h1, h4, h5]
    split_ifs at h2 h3 <;> omega

lemma relMonths_spec {first second : Date} (hf : first.Valid) (hs : second.Valid)
    (h : first ≤ second) :
    0 ≤ relMonths first second ∧
      addMonths first (relMonths first second) ≤ second ∧
      second < addMonths first (relMonths first second + 1) := by
  have hnotlt : ¬ second < first := not_lt.2 h
  have hk0 : 0 ≤ monthIndex second - monthIndex first := by
    have := monthIndex_le_of_le hf hs h
    omega
  unfold relMonths
  rw [if_neg hnotlt]
  by_cases hc : addMonths first (monthIndex second - monthIndex first) ≤ second
  · rw [if_pos hc]
    refine ⟨hk0, hc, ?_⟩
    apply lt_of_monthIndex_lt hs (addMonths_valid hf _)
    rw [addMonths_monthIndex]
    omega
  · rw [if_neg hc]
    have hk1 : 1 ≤ monthIndex second - monthIndex first := by
      rcases eq_or_lt_of_le hk0 with heq | hlt
      · exfalso
        apply hc
        rw [← heq, addMonths_zero hf]
        exact h
      · omega
    refine ⟨by omega, ?_, ?_⟩
    · apply le_of_lt
      apply lt_of_monthIndex_lt (addMonths_valid hf _) hs
      rw [addMonths_monthIndex]
      omega
    · have : monthIndex second - monthIndex first - 1 + 1 = monthIndex second - monthIndex first := by
        omega
      rw [this]
      exact not_le.1 hc

lemma monthsBetween_bounds {first second : Date} (hf : first.Valid) (hs : second.Valid)
    (h : first ≤ second) :
    ((relMonths first second : ℤ) : ℚ) ≤ monthsBetween first second ∧
      monthsBetween first second < ((relMonths first second : ℤ) : ℚ) + 1 ∧
      0 ≤ monthsBetween first second := by
  obtain ⟨hk0, hle, hlt⟩ := relMonths_spec hf hs h
  have hdays0 : 0 ≤ dayNumber second - dayNumber (addMonths first (relMonths first second)) := by
    have := dayNumber_le_of_le (addMonths_valid hf _) hs hle
    omega
  have hdays31 : dayNumber second - dayNumber (addMonths first (relMonths first second)) ≤ 30 := by
    have h1 := dayNumber_lt_of_lt hs (addMonths_valid hf _) hlt
    have h2 := dayNumber_addMonths_succ first (relMonths first second)
    omega
  unfold monthsBetween
  set k := relMonths first second
  set days := dayNumber second - dayNumber (addMonths first k) with hdays
  have hdq0 : (0:ℚ) ≤ (days : ℚ) := by exact_mod_cast hdays0
  have hdq : (days : ℚ) ≤ 30 := by exact_mod_cast hdays31
  have hfrac0 : (0:ℚ) ≤ (days : ℚ) * 48 / 1461 :=
    div_nonneg (mul_nonneg hdq0 (by norm_num)) (by norm_num)
  have hfrac1 : (days : ℚ) * 48 / 1461 < 1 := by
    rw [div_lt_one (by norm_num)]
    linarith
  have h0 : (0:ℚ) ≤ (k:ℚ) := by exact_mod_cast hk0
  exact ⟨by linarith, by linarith, by linarith⟩

lemma monthsBetween_mono {first d1 d2 : Date} (hf : first.Valid) (h1 : d1.Valid)
    (h2 : d2.Valid) (hf1 : first ≤ d1) (h12 : d1 ≤ d2) :
    monthsBetween first d1 ≤ monthsBetween first d2 := by
  have hf2 : first ≤ d2 := le_trans hf1 h12
  obtain ⟨hk1, hle1, hlt1⟩ := relMonths_spec hf h1 hf1
  obtain ⟨hk2, hle2, hlt2⟩ := relMonths_spec hf h2 hf2
  have hk : relMonths first d1 ≤ relMonths first d2 := by
    by_contra hcon
    push_neg at hcon
    have : addMonths first (relMonths first d2 + 1) ≤ addMonths first (relMonths first d1) :=
      addMonths_le_addMonths hf (by omega)
    exact absurd (lt_of_lt_of_le (lt_of_le_of_lt h12 hlt2) (le_trans this hle1)) (lt_irrefl d1)
  rcases eq_or_lt_of_le hk with heq | hlt
  · unfold monthsBetween
    rw [heq]
    have hdd : dayNumber d1 ≤ dayNumber d2 := dayNumber_le_of_le h1 h2 h12
    have : ((dayNumber d1 - dayNumber (addMonths first (relMonths first d2)) : ℤ) : ℚ) ≤
        ((dayNumber d2 - dayNumber (addMonths first (relMonths first d2)) : ℤ) : ℚ) := by
      exact_mod_cast sub_le_sub_right hdd _
    linarith [mul_le_mul_of_nonneg_right this (show (0:ℚ) ≤ 48 by norm_num)]
  · have hub := (monthsBetween_bounds hf h1 hf1).2.1
    have hlb := (monthsBetween_bounds hf h2 hf2).1
    have : ((relMonths first d1 : ℤ) : ℚ) + 1 ≤ ((relMonths first d2 : ℤ) : ℚ) := by
      exact_mod_cast hlt
    linarith

lemma monthsBetween_self {d : Date} (hd : d.Valid) : monthsBetween d d = 0 := by
  have hk : relMonths d d = 0 := by
    unfold relMonths
    rw [if_neg (lt_irrefl d), sub_self, if_pos]
    rw [addMonths_zero hd]
  unfold monthsBetween
  rw [hk]
  dsimp only
  rw [addMonths_zero hd]
  norm_num

lemma multiplier_self {rate : ℝ} {d : Date} (hd : d.Valid) : multiplier rate d d = 1 := by
  unfold multiplier
  rw [if_pos (le_refl d), monthsBetween_self hd]
  norm_num

/-- Claim C7, main theorem. -/
theorem multiplier_monotone (rate : ℝ) (anchor : Date)
    (hr0 : 0 < rate) (hr1 : rate ≤ 1) (ha : anchor.Valid) :
    (∀ d1 d2, d1.Valid → d2.Valid → d1 ≤ d2 →
      multiplier rate anchor d1 ≤ multiplier rate anchor d2) ∧
    multiplier rate anchor anchor = 1 := by
  refine ⟨?_, multiplier_self ha⟩
  intro d1 d2 h1 h2 h12
  by_cases hc1 : anchor ≤ d1
  · have hc2 : anchor ≤ d2 := le_trans hc1 h12
    unfold multiplier
    rw [if_pos hc1, if_pos hc2]
    apply Real.rpow_le_rpow_of_exponent_le (by linarith)
    have := monthsBetween_mono ha h1 h2 hc1 h12
    exact_mod_cast this
  · unfold multiplier
    rw [if_neg hc1]
    dsimp only
    rw [show (1:ℝ) + 0 / 12 = 1 by norm_num, Real.one_rpow]
    by_cases hc2 : anchor ≤ d2
    · rw [if_pos hc2]
      calc (1:ℝ) = (1 + rate / 12) ^ (0:ℝ) := (Real.rpow_zero _).symm
        _ ≤ (1 + rate / 12) ^ ((monthsBetween anchor d2 : ℚ) : ℝ) := by
            apply Real.rpow_le_rpow_of_exponent_le (by linarith)
            have := (monthsBetween_bounds ha h2 hc2).2.2
            exact_mod_cast this
    · rw [if_neg hc2]
      rw [show (1:ℝ) + 0 / 12 = 1 by norm_num, Real.one_rpow]

/-- Witness for C7. -/
theorem multiplier_monotone_witness :
    (0:ℝ) < 1/2 ∧ (1/2:ℝ) ≤ 1 ∧ (Date.mk 2020 1 1).Valid ∧
    ((∀ d1 d2, d1.Valid → d2.Valid → d1 ≤ d2 →
      multiplier (1/2) ⟨2020,1,1⟩ d1 ≤ multiplier (1/2) ⟨2020,1,1⟩ d2) ∧
    multiplier (1/2) ⟨2020,1,1⟩ ⟨2020,1,1⟩ = 1) :=
  ⟨by norm_num, by norm_num, by decide,
    multiplier_monotone (1/2) ⟨2020,1,1⟩ (by norm_num) (by norm_num) (by decide)⟩

/-- A zero rate gives a multiplier of one for every date pair. -/
lemma multiplier_zero (s d : Date) : multiplier 0 s d = 1 := by
  simp [multiplier]

lemma multiplier_nonneg {rate : ℝ} (hr : 0 ≤ rate) (s d : Date) :
    0 ≤ multiplier rate s d := by
  unfold multiplier
  apply Real.rpow_nonneg
  split <;> nlinarith

lemma Instr.value_nonneg {s : Instr} (hcur : 0 ≤ s.curValue) (hrate : 0 ≤ s.rate)
    {d : Date} {v : ℝ} (hv : s.value d = some v) : 0 ≤ v := by
  unfold Instr.value at hv
  split_ifs at hv <;> simp only [Option.some.injEq, reduceCtorEq] at hv
  · exact le_of_eq hv
  · exact hv ▸ hcur
  · exact hv ▸ mul_nonneg hcur (multiplier_nonneg hrate _ _)

lemma Instr.value_nonpos {s : Instr} (hcur : s.curValue ≤ 0) (hrate : 0 ≤ s.rate)
    {d : Date} {v : ℝ} (hv : s.value d = some v) : v ≤ 0 := by
  unfold Instr.value at hv
  split_ifs at hv <;> simp only [Option.some.injEq, reduceCtorEq] at hv
  · exact le_of_eq hv.symm
  · exact hv ▸ hcur
  · exact hv ▸ mul_nonpos_of_nonpos_of_nonneg hcur (multiplier_nonneg hrate _ _)

lemma Asset.transact_eq {s : Instr} {d : Date} {v : ℝ} (hv : s.value d = some v)
    (amount : ℝ) :
    Asset.transact s amount d =
      some (if amount < 0 then min 0 (v + amount) else 0,
        { s with curValue := if amount < 0 then max 0 (v + amount) else v + amount,
                 valueDate := d }) := by
  unfold Asset.transact Instr.transactPriv
  split_ifs with h
  · simp only [hv, Option.some_bind', Option.map_some', Option.some.injEq, Prod.mk.injEq]
    refine ⟨?_, ?_⟩
    · rcases le_total (-v) amount with h2 | h2
      · rw [max_eq_right h2, min_eq_left (by linarith)]; ring
      · rw [max_eq_left h2, min_eq_right (by linarith)]; ring
    · rcases le_total (-v) amount with h2 | h2
      · rw [max_eq_right h2, max_eq_right (by linarith)]
      · rw [max_eq_left h2, max_eq_left (by linarith)]
        congr 1
        ring
  · simp [hv]

lemma Asset.transact_none {s : Instr} {d : Date} (hv : s.value d = none) (amount : ℝ) :
    Asset.transact s amount d = none := by
  unfold Asset.transact Instr.transactPriv
  split_ifs <;> simp [hv]

/-- A successful `Asset.transact` keeps the cached value non-negative and the
construction-time fields untouched. -/
lemma Asset.transact_inv {s s2 : Instr} {amount r : ℝ} {d : Date}
    (h : Asset.transact s amount d = some (r, s2))
    (hcur : 0 ≤ s.curValue) (hrate : 0 ≤ s.rate) :
    0 ≤ s2.curValue ∧ s2.startValue = s.startValue ∧ s2.startDate = s.startDate ∧
      s2.rate = s.rate := by
  rcases hs : s.value d with _ | v
  · rw [Asset.transact_none hs] at h; exact absurd h (by simp)
  · rw [Asset.transact_eq hs amount] at h
    have h2 : s2 = { s with curValue := if amount < 0 then max 0 (v + amount) else v + amount,
                            valueDate := d } := by
      injection h with h
      exact (congrArg Prod.snd h).symm
    subst h2
    have hv := Instr.value_nonneg hcur hrate hs
    refine ⟨?_, rfl, rfl, rfl⟩
    simp only
    split_ifs with ha
    · exact le_max_left _ _
    · linarith



lemma assetReaches_invariant {v0 : ℝ} {sd : Date} {rate : ℝ}
    (hv0 : 0 ≤ v0) (hr : 0 ≤ rate) {s : Instr}
    (h : AssetReaches (mkInstr v0 sd rate) s) :
    0 ≤ s.curValue ∧ s.rate = rate := by
  induction h with
  | refl => exact ⟨hv0, rfl⟩
  | step hreach hle htr ih =>
    have := Asset.transact_inv htr ih.1 (ih.2 ▸ hr)
    exact ⟨this.1, this.2.2.2.trans ih.2⟩

/-- Claim C3, main theorem. -/
theorem asset_transact_correct (v0 : ℝ) (sd : Date) (rate : ℝ)
    (hv0 : 0 ≤ v0) (hr0 : 0 ≤ rate) (hr1 : rate ≤ 1) :
    ∀ s, AssetReaches (mkInstr v0 sd rate) s →
      (∀ d v, s.value d = some v → 0 ≤ v) ∧
      (∀ amount d v, 0 ≤ amount → s.value d = some v →
        Asset.transact s amount d =
          some (0, { s with curValue := v + amount, valueDate := d })) ∧
      (∀ amount d v, s.value d = some v → amount + v < 0 →
        Asset.transact s amount d =
          some (amount + v, { s with curValue := 0, valueDate := d })) := by
  intro s hs
  obtain ⟨hcur, hrate⟩ := assetReaches_invariant hv0 hr0 hs
  refine ⟨fun d v hv => Instr.value_nonneg hcur (hrate ▸ hr0) hv, ?_, ?_⟩
  · intro amount d v ha hv
    rw [Asset.transact_eq hv amount, if_neg (not_lt.2 ha), if_neg (not_lt.2 ha)]
  · intro amount d v hv hneg
    have hvnn : 0 ≤ v := Instr.value_nonneg hcur (hrate ▸ hr0) hv
    have ha : amount < 0 := by linarith
    rw [Asset.transact_eq hv amount, if_pos ha, if_pos ha,
      min_eq_right (by linarith), max_eq_left (by linarith)]
    congr 2
    ring

/-- Witness for C3 at a concrete asset and withdrawal. -/
theorem asset_transact_correct_witness :
    (0:ℝ) ≤ 100 ∧ (0:ℝ) ≤ (0:ℝ) ∧ (0:ℝ) ≤ 1 ∧
    (mkInstr 100 ⟨2020,1,1⟩ 0).value ⟨2020,1,1⟩ = some 100 ∧
    (-150 : ℝ) + 100 < 0 ∧
    Asset.transact (mkInstr 100 ⟨2020,1,1⟩ 0) (-150) ⟨2020,1,1⟩ =
      some ((-150) + 100,
        { mkInstr 100 ⟨2020,1,1⟩ 0 with curValue := 0, valueDate := ⟨2020,1,1⟩ }) := by
  have hval : (mkInstr 100 ⟨2020,1,1⟩ 0).value ⟨2020,1,1⟩ = some 100 := by
    simp [Instr.value, mkInstr, Date.lt_def]
  refine ⟨by norm_num, le_refl 0, by norm_num, hval, by norm_num, ?_⟩
  exact (asset_transact_correct 100 ⟨2020,1,1⟩ 0 (by norm_num) (le_refl 0) (by norm_num)
    _ AssetReaches.refl).2.2 (-150) ⟨2020,1,1⟩ 100 hval (by norm_num)



lemma Liability.makePayment_eq {l : Liability} {d : Date} {v : ℝ}
    (hv : l.instr.value d = some v) (p : ℝ) (hp : 0 ≤ p) (hd : ¬ d < l.instr.startDate) :
    l.makePayment p d =
      some (p - min (-v) p,
        { l with instr := { l.instr with curValue := v + min (-v) p, valueDate := d } }) := by
  unfold Liability.makePayment Instr.transactPriv
  rw [if_neg (not_lt.2 hp), if_neg hd]
  simp [hv]

lemma Liability.makePayment_inv {l l2 : Liability} {p r : ℝ} {d : Date}
    (h : l.makePayment p d = some (r, l2))
    (hcur : l.instr.curValue ≤ 0) (hrate : 0 ≤ l.instr.rate) :
    l2.instr.curValue ≤ 0 ∧ l2.instr.startValue = l.instr.startValue ∧
      l2.instr.startDate = l.instr.startDate ∧ l2.instr.rate = l.instr.rate ∧
      l2.minFixed = l.minFixed ∧ l2.endDate = l.endDate := by
  rw [Liability.makePayment] at h
  split_ifs at h with hp hd
  · have h2 : l = l2 := congrArg Prod.snd (Option.some.inj h)
    subst h2
    exact ⟨hcur, rfl, rfl, rfl, rfl, rfl⟩
  · rcases Option.eq_none_or_eq_some (l.instr.value d) with hv | ⟨v, hv⟩
    · rw [hv] at h
      exact absurd h (by simp)
    · rw [hv, Option.some_bind'] at h
      simp only [Instr.transactPriv, hv, Option.map_some', Option.some.injEq,
        Prod.mk.injEq] at h
      obtain ⟨h1, h2⟩ := h
      subst h2
      refine ⟨?_, rfl, rfl, rfl, rfl, rfl⟩
      have hvle := Instr.value_nonpos hcur hrate hv
      have hmin : min (-v) p ≤ -v := min_le_left _ _
      simp only
      linarith



lemma liabReaches_invariant {v0 : ℝ} {sd : Date} {n : ℕ} {rate : ℝ}
    (hv0 : v0 < 0) (hr : 0 ≤ rate) {l : Liability}
    (h : LiabReaches (mkLiability v0 sd n rate) l) :
    l.instr.curValue ≤ 0 ∧ l.instr.rate = rate ∧
      l.minFixed = (mkLiability v0 sd n rate).minFixed := by
  induction h with
  | refl => exact ⟨le_of_lt hv0, rfl, rfl⟩
  | step hreach hpay ih =>
    have := Liability.makePayment_inv hpay ih.1 (ih.2.1 ▸ hr)
    exact ⟨this.1, this.2.2.2.1.trans ih.2.1, this.2.2.2.2.1.trans ih.2.2⟩

lemma minimumPayment_pos {principal i : ℝ} {n : ℕ}
    (hp : principal < 0) (hi : 0 ≤ i) (hn : 1 ≤ n) :
    0 < minimumPayment principal i n := by
  unfold minimumPayment
  rcases eq_or_lt_of_le hi with hz | hpos
  · rw [if_pos hz.symm]
    apply div_pos (by linarith)
    exact_mod_cast Nat.pos_of_ne_zero (by omega)
  · rw [if_neg (ne_of_gt hpos)]
    apply div_pos
    · exact mul_pos (mul_pos (by linarith) hpos)
        (pow_pos (show (0:ℝ) < 1 + i by linarith) n)
    · have : (1:ℝ) < (1 + i) ^ n := by
        apply one_lt_pow₀ (by linarith) (by omega)
      linarith

/-- Claim C4, main theorem. -/
theorem liability_payment_invariants (v0 : ℝ) (sd : Date) (n : ℕ) (rate : ℝ)
    (hv0 : v0 < 0) (hr0 : 0 ≤ rate) (hr1 : rate ≤ 1) (hn : 1 ≤ n) :
    ∀ l, LiabReaches (mkLiability v0 sd n rate) l →
      (∀ d v, l.instr.value d = some v → v ≤ 0) ∧
      (∀ d v, l.instr.value d = some v →
        l.minimumMonthly d = some (min (mkLiability v0 sd n rate).minFixed |v|)) ∧
      (∀ d, l.minimumMonthly d = some 0 → l.instr.value d = some 0) := by
  intro l hl
  obtain ⟨hcur, hrate, hfix⟩ := liabReaches_invariant hv0 hr0 hl
  have hfixpos : 0 < l.minFixed := by
    rw [hfix]
    exact minimumPayment_pos hv0 (by positivity) hn
  refine ⟨fun d v hv => Instr.value_nonpos hcur (hrate ▸ hr0) hv, ?_, ?_⟩
  · intro d v hv
    have hvle : v ≤ 0 := Instr.value_nonpos hcur (hrate ▸ hr0) hv
    rw [Liability.minimumMonthly, hv, Option.map_some', abs_of_nonpos hvle, hfix]
  · intro d hm
    rw [Liability.minimumMonthly] at hm
    rcases Option.eq_none_or_eq_some (l.instr.value d) with hv | ⟨v, hv⟩
    · rw [hv] at hm
      exact absurd hm (by simp)
    · rw [hv, Option.map_some'] at hm
      have hmin := Option.some.inj hm
      have hvle : v ≤ 0 := Instr.value_nonpos hcur (hrate ▸ hr0) hv
      have hv0' : v = 0 := by
        rcases min_cases l.minFixed (-v) with ⟨he, _⟩ | ⟨he, _⟩ <;> rw [he] at hmin <;> linarith
      rw [hv, hv0']

/-- Witness for C4 at a concrete liability. -/
theorem liability_payment_invariants_witness :
    (-1200 : ℝ) < 0 ∧ (0:ℝ) ≤ (0:ℝ) ∧ (0:ℝ) ≤ 1 ∧ 1 ≤ 12 ∧
    (mkLiability (-1200) ⟨2020,1,1⟩ 12 0).instr.value ⟨2020,1,1⟩ = some (-1200) ∧
    (mkLiability (-1200) ⟨2020,1,1⟩ 12 0).minimumMonthly ⟨2020,1,1⟩ =
      some (min (mkLiability (-1200) ⟨2020,1,1⟩ 12 0).minFixed |(-1200 : ℝ)|) := by
  have hval : (mkLiability (-1200) ⟨2020,1,1⟩ 12 0).instr.value ⟨2020,1,1⟩ = some (-1200) := by
    simp [mkLiability, Instr.value, mkInstr, Date.lt_def]
  refine ⟨by norm_num, le_refl 0, by norm_num, by norm_num, hval, ?_⟩
  exact (liability_payment_invariants (-1200) ⟨2020,1,1⟩ 12 0 (by norm_num) (le_refl 0)
    (by norm_num) (by norm_num) _ LiabReaches.refl).2.1 ⟨2020,1,1⟩ (-1200) hval



/-- C1 counterexample. -/
theorem value_before_cursor_counterexample :
    AssetReaches (mkInstr 100 ⟨2020,1,1⟩ 0) (mkInstr 100 ⟨2020,1,1⟩ 0) ∧
    (⟨2019,12,1⟩ : Date) < (mkInstr 100 ⟨2020,1,1⟩ 0).valueDate ∧
    (mkInstr 100 ⟨2020,1,1⟩ 0).value ⟨2019,12,1⟩ = some 0 := by
  refine ⟨AssetReaches.refl, by decide, ?_⟩
  simp [Instr.value, mkInstr, Date.lt_def]

/-- C1 amended. -/
theorem value_before_cursor_amended (s : Instr) (d : Date)
    (h1 : s.startDate ≤ d) (h2 : d < s.valueDate) : s.value d = none := by
  simp [Instr.value, h2, not_lt.2 h1]

/-- C1 witness. -/
theorem value_before_cursor_amended_witness :
    (⟨2020,1,1⟩ : Date) ≤ ⟨2020,2,1⟩ ∧
    (⟨2020,2,1⟩ : Date) < (⟨2020,3,1⟩ : Date) ∧
    Instr.value ⟨100, 80, ⟨2020,1,1⟩, ⟨2020,3,1⟩, 0⟩ ⟨2020,2,1⟩ = none :=
  ⟨by decide, by decide,
    value_before_cursor_amended ⟨100, 80, ⟨2020,1,1⟩, ⟨2020,3,1⟩, 0⟩ ⟨2020,2,1⟩
      (by decide) (by decide)⟩

/-- C10 counterexample: a pre-start withdrawal is clamped, the stored value
becomes 0, not 0 + amount. -/
theorem prestart_transact_counterexample :
    Asset.transact (mkInstr 100 ⟨2020,1,1⟩ 0) (-50) ⟨2019,6,1⟩
      = some (-50, ⟨100, 0, ⟨2020,1,1⟩, ⟨2019,6,1⟩, 0⟩) ∧
    (0 : ℝ) ≠ 0 + (-50) := by
  constructor
  · simp [Asset.transact, Instr.transactPriv, Instr.value, mkInstr, Date.lt_def]
  · norm_num

/-- C10 amended. -/
theorem prestart_transact_amended (s : Instr) (amount : ℝ) (d : Date)
    (hd : d < s.startDate) :
    Asset.transact s amount d =
      some (min 0 amount, { s with curValue := max 0 amount, valueDate := d }) ∧
    (∀ d2, s.startDate ≤ d2 →
      Instr.value { s with curValue := max 0 amount, valueDate := d } d2 =
        some (max 0 amount * multiplier s.rate d d2)) ∧
    Instr.reset { s with curValue := max 0 amount, valueDate := d } = s.reset := by
  have hv : s.value d = some 0 := by simp [Instr.value, hd]
  refine ⟨?_, ?_, rfl⟩
  · rw [Asset.transact_eq hv amount]
    rcases lt_or_le amount 0 with ha | ha
    · rw [if_pos ha, if_pos ha, zero_add, min_eq_right (le_of_lt ha),
        max_eq_left (le_of_lt ha)]
    · rw [if_neg (not_lt.2 ha), if_neg (not_lt.2 ha), zero_add,
        min_eq_left ha, max_eq_right ha]
  · intro d2 h2
    have hlt : d < d2 := lt_of_lt_of_le hd h2
    rw [Instr.value]
    simp only
    rw [if_neg (not_lt.2 h2), if_neg (not_lt.2 (le_of_lt hlt)), if_neg (ne_of_gt hlt)]


/-- Witness for the amended C10 at a concrete asset and pre-start date. -/
theorem prestart_transact_amended_witness :
    (⟨2019,6,1⟩ : Date) < (mkInstr 100 ⟨2020,1,1⟩ 0).startDate ∧
    (Asset.transact (mkInstr 100 ⟨2020,1,1⟩ 0) (-50) ⟨2019,6,1⟩ =
      some (min 0 (-50),
        { mkInstr 100 ⟨2020,1,1⟩ 0 with curValue := max 0 (-50), valueDate := ⟨2019,6,1⟩ }) ∧
    (∀ d2, (mkInstr 100 ⟨2020,1,1⟩ 0).startDate ≤ d2 →
      Instr.value { mkInstr 100 ⟨2020,1,1⟩ 0 with curValue := max 0 (-50), valueDate := ⟨2019,6,1⟩ } d2 =
        some (max 0 (-50) * multiplier (mkInstr 100 ⟨2020,1,1⟩ 0).rate ⟨2019,6,1⟩ d2)) ∧
    Instr.reset { mkInstr 100 ⟨2020,1,1⟩ 0 with curValue := max 0 (-50), valueDate := ⟨2019,6,1⟩ } =
      (mkInstr 100 ⟨2020,1,1⟩ 0).reset) :=
  ⟨by decide, prestart_transact_amended (mkInstr 100 ⟨2020,1,1⟩ 0) (-50) ⟨2019,6,1⟩ (by decide)⟩


/-- Zero-rate value read: with no compounding the cached value is returned
at any date not before the cursor or start. -/
lemma Instr.value_zero_rate {s : Instr} {d : Date} (h0 : s.rate = 0)
    (hsd : ¬ d < s.startDate) (hvd : ¬ d < s.valueDate) :
    s.value d = some s.curValue := by
  unfold Instr.value
  rw [if_neg hsd, if_neg hvd]
  by_cases hd : d = s.valueDate
  · rw [if_pos hd]
  · rw [if_neg hd, h0, multiplier_zero, mul_one]

/-- One step of paying the fixed minimum on a zero-rate liability whose
remaining debt still covers the fixed minimum. -/
lemma payMin_step {l : Liability} {d : Date} {ds : List Date} (h0 : l.instr.rate = 0)
    (hsd : ¬ d < l.instr.startDate) (hvd : ¬ d < l.instr.valueDate)
    (hc : l.instr.curValue + l.minFixed ≤ 0) (hfixnn : 0 ≤ l.minFixed) :
    payMinTrace (d :: ds) l =
      (payMinTrace ds
        { l with instr := { l.instr with curValue := l.instr.curValue + l.minFixed,
                                         valueDate := d } }).map
        (fun p => (l.minFixed :: p.1, p.2)) := by
  have hv : l.instr.value d = some l.instr.curValue := Instr.value_zero_rate h0 hsd hvd
  have hmm : l.minimumMonthly d = some l.minFixed := by
    rw [Liability.minimumMonthly, hv, Option.map_some']
    congr 1
    exact min_eq_left (by linarith)
  have hmp : l.makePayment l.minFixed d =
      some (0, { l with instr := { l.instr with curValue := l.instr.curValue + l.minFixed,
                                                valueDate := d } }) := by
    rw [Liability.makePayment, if_neg (not_lt.2 hfixnn), if_neg hsd, hv, Option.some_bind']
    dsimp only
    have hmin : min (-l.instr.curValue) l.minFixed = l.minFixed :=
      min_eq_right (by linarith)
    rw [hmin, Instr.transactPriv, hv, Option.map_some', Option.map_some', sub_self]
  rw [payMinTrace, hmm, Option.some_bind', hmp, Option.some_bind']

set_option maxHeartbeats 2000000

/-- Claim C9. -/
theorem zero_rate_amortization :
    payMinTrace [⟨2020,1,1⟩, ⟨2020,2,1⟩, ⟨2020,3,1⟩, ⟨2020,4,1⟩, ⟨2020,5,1⟩, ⟨2020,6,1⟩, ⟨2020,7,1⟩, ⟨2020,8,1⟩, ⟨2020,9,1⟩, ⟨2020,10,1⟩, ⟨2020,11,1⟩, ⟨2020,12,1⟩]
      (mkLiability (-1200) ⟨2020,1,1⟩ 12 0) =
      some ([100, 100, 100, 100, 100, 100, 100, 100, 100, 100, 100, 100],
        ⟨⟨-1200, 0, ⟨2020,1,1⟩, ⟨2020,12,1⟩, 0⟩, addMonths ⟨2020,1,1⟩ 12, 100⟩) ∧
    Instr.value ⟨-1200, 0, ⟨2020,1,1⟩, ⟨2020,12,1⟩, 0⟩ ⟨2020,12,1⟩ = some 0 := by
  constructor
  case left =>
    rw [payMin_step (by norm_num [mkLiability, mkInstr]) (by decide) (by decide)
      (by norm_num [mkLiability, mkInstr, minimumPayment])
      (by norm_num [mkLiability, mkInstr, minimumPayment])]
    norm_num [mkLiability, mkInstr, minimumPayment]
    rw [payMin_step (by norm_num [mkLiability, mkInstr]) (by decide) (by decide)
      (by norm_num [mkLiability, mkInstr, minimumPayment])
      (by norm_num [mkLiability, mkInstr, minimumPayment])]
    norm_num [mkLiability, mkInstr, minimumPayment]
    rw [payMin_step (by norm_num [mkLiability, mkInstr]) (by decide) (by decide)
      (by norm_num [mkLiability, mkInstr, minimumPayment])
      (by norm_num [mkLiability, mkInstr, minimumPayment])]
    norm_num [mkLiability, mkInstr, minimumPayment]
    rw [payMin_step (by norm_num [mkLiability, mkInstr]) (by decide) (by decide)
      (by norm_num [mkLiability, mkInstr, minimumPayment])
      (by norm_num [mkLiability, mkInstr, minimumPayment])]
    norm_num [mkLiability, mkInstr, minimumPayment]
    rw [payMin_step (by norm_num [mkLiability, mkInstr]) (by decide) (by decide)
      (by norm_num [mkLiability, mkInstr, minimumPayment])
      (by norm_num [mkLiability, mkInstr, minimumPayment])]
    norm_num [mkLiability, mkInstr, minimumPayment]
    rw [payMin_step (by norm_num [mkLiability, mkInstr]) (by decide) (by decide)
      (by norm_num [mkLiability, mkInstr, minimumPayment])
      (by norm_num [mkLiability, mkInstr, minimumPayment])]
    norm_num [mkLiability, mkInstr, minimumPayment]
    rw [payMin_step (by norm_num [mkLiability, mkInstr]) (by decide) (by decide)
      (by norm_num [mkLiability, mkInstr, minimumPayment])
      (by norm_num [mkLiability, mkInstr, minimumPayment])]
    norm_num [mkLiability, mkInstr, minimumPayment]
    rw [payMin_step (by norm_num [mkLiability, mkInstr]) (by decide) (by decide)
      (by norm_num [mkLiability, mkInstr, minimumPayment])
      (by norm_num [mkLiability, mkInstr, minimumPayment])]
    norm_num [mkLiability, mkInstr, minimumPayment]
    rw [payMin_step (by norm_num [mkLiability, mkInstr]) (by decide) (by decide)
      (by norm_num [mkLiability, mkInstr, minimumPayment])
      (by norm_num [mkLiability, mkInstr, minimumPayment])]
    norm_num [mkLiability, mkInstr, minimumPayment]
    rw [payMin_step (by norm_num [mkLiability, mkInstr]) (by decide) (by decide)
      (by norm_num [mkLiability, mkInstr, minimumPayment])
      (by norm_num [mkLiability, mkInstr, minimumPayment])]
    norm_num [mkLiability, mkInstr, minimumPayment]
    rw [payMin_step (by norm_num [mkLiability, mkInstr]) (by decide) (by decide)
      (by norm_num [mkLiability, mkInstr, minimumPayment])
      (by norm_num [mkLiability, mkInstr, minimumPayment])]
    norm_num [mkLiability, mkInstr, minimumPayment]
    rw [payMin_step (by norm_num [mkLiability, mkInstr]) (by decide) (by decide)
      (by norm_num [mkLiability, mkInstr, minimumPayment])
      (by norm_num [mkLiability, mkInstr, minimumPayment])]
    norm_num [mkLiability, mkInstr, minimumPayment, payMinTrace]
  case right =>
    norm_num [Instr.value, Date.lt_def, Date.mk.injEq]

lemma c8_step (d : Date) (ds : List Date) (st : PState)
    (hd : ¬ d < (⟨2020,1,1⟩ : Date)) (hcb : 0 ≤ st.cashBalance) :
    processLoop [("salary", Source.dateRange 1000 ⟨2020,1,1⟩ none 0)] [] [] [] none
      (d :: ds) st =
    processLoop [("salary", Source.dateRange 1000 ⟨2020,1,1⟩ none 0)] [] [] [] none ds
      ⟨st.assetStore, st.liabStore,
       { incomes := appendAt st.out.incomes "salary" 1000,
         incomesTotal := st.out.incomesTotal ++ [1000],
         expenses := st.out.expenses,
         expensesTotal := st.out.expensesTotal ++ [0],
         liabilities := st.out.liabilities,
         liabilitiesTotal := st.out.liabilitiesTotal ++ [0],
         assets := st.out.assets,
         assetsTotal := st.out.assetsTotal ++ [0],
         cashflow := st.out.cashflow ++ [1000],
         cashBalance := st.out.cashBalance ++ [st.cashBalance + 1000],
         netWorth := st.out.netWorth ++ [st.cashBalance + 1000] },
       st.cashBalance + 1000⟩ := by
  have hpd : processDate [("salary", Source.dateRange 1000 ⟨2020,1,1⟩ none 0)] [] [] [] none st d =
      some ⟨st.assetStore, st.liabStore,
       { incomes := appendAt st.out.incomes "salary" 1000,
         incomesTotal := st.out.incomesTotal ++ [1000],
         expenses := st.out.expenses,
         expensesTotal := st.out.expensesTotal ++ [0],
         liabilities := st.out.liabilities,
         liabilitiesTotal := st.out.liabilitiesTotal ++ [0],
         assets := st.out.assets,
         assetsTotal := st.out.assetsTotal ++ [0],
         cashflow := st.out.cashflow ++ [1000],
         cashBalance := st.out.cashBalance ++ [st.cashBalance + 1000],
         netWorth := st.out.netWorth ++ [st.cashBalance + 1000] },
       st.cashBalance + 1000⟩ := by
    norm_num [processDate, incomesStep, expensesStep, liabPayStep, liabReadStep,
      assetReadStep, Source.monthlyAmount, multiplier_zero, overdraftRecovery, hd,
      PState.mk.injEq, Output.mk.injEq, not_lt.1 hd]
    rw [if_neg (not_lt.2 hcb)]
  rw [processLoop, hpd, Option.some_bind']

set_option maxHeartbeats 2000000

/-- Claim C8. -/
theorem single_income_run :
    (process [⟨2020,1,1⟩, ⟨2020,2,1⟩, ⟨2020,3,1⟩, ⟨2020,4,1⟩, ⟨2020,5,1⟩, ⟨2020,6,1⟩, ⟨2020,7,1⟩, ⟨2020,8,1⟩, ⟨2020,9,1⟩, ⟨2020,10,1⟩, ⟨2020,11,1⟩, ⟨2020,12,1⟩]
      [("salary", Source.dateRange 1000 ⟨2020,1,1⟩ none 0)]
      [] [] [] none (fun _ => mkInstr 0 ⟨2020,1,1⟩ 0)
      (fun _ => mkLiability (-1) ⟨2020,1,1⟩ 1 0)).map
      (fun st => (st.out.cashBalance, st.out.netWorth)) =
    some ([1000, 2000, 3000, 4000, 5000, 6000, 7000, 8000, 9000, 10000, 11000, 12000],
          [1000, 2000, 3000, 4000, 5000, 6000, 7000, 8000, 9000, 10000, 11000, 12000]) := by
  rw [process]
  have hra : resetAssets [] (fun _ => mkInstr 0 ⟨2020,1,1⟩ 0) = (fun _ => mkInstr 0 ⟨2020,1,1⟩ 0) := rfl
  have hrl : resetLiabs [] (fun _ => mkLiability (-1) ⟨2020,1,1⟩ 1 0) = (fun _ => mkLiability (-1) ⟨2020,1,1⟩ 1 0) := rfl
  rw [hra, hrl]
  rw [c8_step _ _ _ (by decide) (by norm_num)]
  norm_num [appendAt, emptyOutput]
  rw [c8_step _ _ _ (by decide) (by norm_num)]
  norm_num [appendAt, emptyOutput]
  rw [c8_step _ _ _ (by decide) (by norm_num)]
  norm_num [appendAt, emptyOutput]
  rw [c8_step _ _ _ (by decide) (by norm_num)]
  norm_num [appendAt, emptyOutput]
  rw [c8_step _ _ _ (by decide) (by norm_num)]
  norm_num [appendAt, emptyOutput]
  rw [c8_step _ _ _ (by decide) (by norm_num)]
  norm_num [appendAt, emptyOutput]
  rw [c8_step _ _ _ (by decide) (by norm_num)]
  norm_num [appendAt, emptyOutput]
  rw [c8_step _ _ _ (by decide) (by norm_num)]
  norm_num [appendAt, emptyOutput]
  rw [c8_step _ _ _ (by decide) (by norm_num)]
  norm_num [appendAt, emptyOutput]
  rw [c8_step _ _ _ (by decide) (by norm_num)]
  norm_num [appendAt, emptyOutput]
  rw [c8_step _ _ _ (by decide) (by norm_num)]
  norm_num [appendAt, emptyOutput]
  rw [c8_step _ _ _ (by decide) (by norm_num)]
  norm_num [appendAt, emptyOutput]
  rw [processLoop]
  exact ⟨_, rfl, rfl, rfl⟩

/-- Claim C5. -/
theorem overdraft_recovery_correct (cash cb : ℝ) (hcb : cb < 0) (hcash : 0 < cash) :
    (overdraftRecovery cash cb).1 = max 0 (cash + cb) ∧
    (overdraftRecovery cash cb).2 = cb + (cash - max 0 (cash + cb)) ∧
    (process [⟨2020,1,1⟩, ⟨2020,2,1⟩]
      [("i", Source.oneTime 800 ⟨2020,2,1⟩)]
      [("e", Source.oneTime (-500) ⟨2020,1,1⟩)]
      [] [] none (fun _ => mkInstr 0 ⟨2020,1,1⟩ 0)
      (fun _ => mkLiability (-1) ⟨2020,1,1⟩ 1 0)).map (fun st => st.out.cashBalance) =
    some [-500, 300] := by
  refine ⟨?_, ?_, ?_⟩
  · rw [overdraftRecovery, if_pos ⟨hcash, hcb⟩]
  · rw [overdraftRecovery, if_pos ⟨hcash, hcb⟩]
  · norm_num [process, processLoop, processDate, incomesStep, expensesStep, liabPayStep,
      liabReadStep, assetReadStep, overdraftRecovery, resetLiabs, resetAssets,
      emptyOutput, appendAt, Source.monthlyAmount, Date.mk.injEq]

/-- Witness for C5 at the concrete overdraft of the spec. -/
theorem overdraft_recovery_correct_witness :
    (-500 : ℝ) < 0 ∧ (0:ℝ) < 800 ∧
    ((overdraftRecovery 800 (-500)).1 = max 0 (800 + -500) ∧
     (overdraftRecovery 800 (-500)).2 = -500 + (800 - max 0 (800 + -500)) ∧
     (process [⟨2020,1,1⟩, ⟨2020,2,1⟩]
      [("i", Source.oneTime 800 ⟨2020,2,1⟩)]
      [("e", Source.oneTime (-500) ⟨2020,1,1⟩)]
      [] [] none (fun _ => mkInstr 0 ⟨2020,1,1⟩ 0)
      (fun _ => mkLiability (-1) ⟨2020,1,1⟩ 1 0)).map (fun st => st.out.cashBalance) =
    some [-500, 300]) :=
  ⟨by norm_num, by norm_num, overdraft_recovery_correct 800 (-500) (by norm_num) (by norm_num)⟩

/-- Claim C2 counterexample: a cash handler holding an asset that is not in
the assets mapping is not reset, so a second identical run differs. -/
theorem process_rerun_counterexample :
    (process [⟨2020,1,1⟩] [] [("e", Source.oneTime (-100) ⟨2020,1,1⟩)] [] []
      (some (CashHandler.basic 0)) (fun _ => mkInstr 30 ⟨2020,1,1⟩ 0)
      (fun _ => mkLiability (-1) ⟨2020,1,1⟩ 1 0)).map (fun st => st.out.cashBalance) =
      some [-70] ∧
    ((process [⟨2020,1,1⟩] [] [("e", Source.oneTime (-100) ⟨2020,1,1⟩)] [] []
      (some (CashHandler.basic 0)) (fun _ => mkInstr 30 ⟨2020,1,1⟩ 0)
      (fun _ => mkLiability (-1) ⟨2020,1,1⟩ 1 0)).bind fun st1 =>
        process [⟨2020,1,1⟩] [] [("e", Source.oneTime (-100) ⟨2020,1,1⟩)] [] []
          (some (CashHandler.basic 0)) st1.assetStore st1.liabStore).map
      (fun st => st.out.cashBalance) = some [-100] ∧
    ([(-70 : ℝ)] ≠ [(-100 : ℝ)]) := by
  refine ⟨?_, ?_, by norm_num⟩ <;>
    norm_num [process, processLoop, processDate, incomesStep, expensesStep, liabPayStep,
      liabReadStep, assetReadStep, overdraftRecovery, resetLiabs, resetAssets,
      emptyOutput, appendAt, Source.monthlyAmount, Date.mk.injEq, handleCash,
      Asset.transact, Instr.transactPriv, Instr.value, Function.update, Date.lt_def,
      mkInstr, mkLiability, minimumPayment]

/-- Claim C6 counterexample: an expense source and a liability sharing the
name "x" both append to the same expense sequence, giving two entries for a
single input date. -/
theorem output_alignment_counterexample :
    (process [⟨2020,1,1⟩] [] [("x", Source.oneTime (-5) ⟨2020,1,1⟩)]
      [("x", 0)] [] none (fun _ => mkInstr 0 ⟨2020,1,1⟩ 0)
      (fun _ => mkLiability (-1200) ⟨2020,1,1⟩ 12 0)).map
      (fun st => (st.out.expenses "x").length) = some 2 ∧ (2 : ℕ) ≠ 1 := by
  refine ⟨?_, by norm_num⟩
  norm_num [process, processLoop, processDate, incomesStep, expensesStep, liabPayStep,
    liabReadStep, assetReadStep, overdraftRecovery, resetLiabs, resetAssets,
    emptyOutput, appendAt, Source.monthlyAmount, Date.mk.injEq, Function.update,
    Date.lt_def, mkInstr, mkLiability, minimumPayment, Liability.minimumMonthly,
    Liability.makePayment, Instr.value, Instr.transactPriv, Liability.reset, Instr.reset]


lemma instrSameSpec_refl (s : Instr) : s.sameSpec s := ⟨rfl, rfl, rfl⟩

lemma instrSameSpec_trans {s t u : Instr} (h1 : s.sameSpec t) (h2 : t.sameSpec u) :
    s.sameSpec u :=
  ⟨h1.1.trans h2.1, h1.2.1.trans h2.2.1, h1.2.2.trans h2.2.2⟩

lemma liabSameSpec_refl (l : Liability) : l.sameSpec l :=
  ⟨instrSameSpec_refl _, rfl, rfl⟩

lemma liabSameSpec_trans {l m n : Liability} (h1 : l.sameSpec m) (h2 : m.sameSpec n) :
    l.sameSpec n :=
  ⟨instrSameSpec_trans h1.1 h2.1, h1.2.1.trans h2.2.1, h1.2.2.trans h2.2.2⟩

lemma instrReset_congr {s t : Instr} (h : s.sameSpec t) : s.reset = t.reset := by
  obtain ⟨h1, h2, h3⟩ := h
  cases s; cases t
  simp only at h1 h2 h3
  simp [Instr.reset, h1, h2, h3]

lemma instrReset_sameSpec (s : Instr) : s.reset.sameSpec s := ⟨rfl, rfl, rfl⟩

lemma instrReset_reset (s : Instr) : s.reset.reset = s.reset := rfl

lemma liabReset_congr {l m : Liability} (h : l.sameSpec m) : l.reset = m.reset := by
  obtain ⟨hi, he, hf⟩ := h
  cases l; cases m
  simp only at he hf
  simp only [Liability.reset, Liability.mk.injEq]
  exact ⟨instrReset_congr hi, he, hf⟩

lemma liabReset_sameSpec (l : Liability) : l.reset.sameSpec l :=
  ⟨⟨rfl, rfl, rfl⟩, rfl, rfl⟩

lemma liabReset_reset (l : Liability) : l.reset.reset = l.reset := rfl

/-- Spec fields survive any successful `Asset.transact`. -/
lemma Asset.transact_spec {s s2 : Instr} {amount r : ℝ} {d : Date}
    (h : Asset.transact s amount d = some (r, s2)) : s2.sameSpec s := by
  rcases Option.eq_none_or_eq_some (s.value d) with hv | ⟨v, hv⟩
  · rw [Asset.transact_none hv] at h
    exact absurd h (by simp)
  · rw [Asset.transact_eq hv amount] at h
    have h2 : s2 = { s with curValue := if amount < 0 then max 0 (v + amount) else v + amount,
                            valueDate := d } := by
      injection h with h
      exact (congrArg Prod.snd h).symm
    subst h2
    exact ⟨rfl, rfl, rfl⟩

/-- Spec fields survive any successful `make_payment`. -/
lemma Liability.makePayment_spec {l l2 : Liability} {p r : ℝ} {d : Date}
    (h : l.makePayment p d = some (r, l2)) : l2.sameSpec l := by
  rw [Liability.makePayment] at h
  split_ifs at h with hp hd
  · have h2 : l = l2 := congrArg Prod.snd (Option.some.inj h)
    subst h2
    exact liabSameSpec_refl _
  · rcases Option.eq_none_or_eq_some (l.instr.value d) with hv | ⟨v, hv⟩
    · rw [hv] at h
      exact absurd h (by simp)
    · rw [hv, Option.some_bind'] at h
      simp only [Instr.transactPriv, hv, Option.map_some', Option.some.injEq,
        Prod.mk.injEq] at h
      obtain ⟨h1, h2⟩ := h
      subst h2
      exact ⟨⟨rfl, rfl, rfl⟩, rfl, rfl⟩



mutual

/-- A cash handler only mutates the assets it references, and never their
construction-time fields. -/
theorem handleCash_frame (h : CashHandler) :
    ∀ σ cash d rs, handleCash h σ cash d = some rs →
      (∀ id, id ∉ handlerIds h → rs.2 id = σ id) ∧
      (∀ id, (rs.2 id).sameSpec (σ id)) :=
  match h with
  | .basic a => by
    intro σ cash d rs hr
    rw [handleCash] at hr
    rcases Option.eq_none_or_eq_some (Asset.transact (σ a) cash d) with hv | ⟨⟨r2, s2⟩, hv⟩
    · rw [hv] at hr
      exact absurd hr (by simp)
    · rw [hv, Option.map_some'] at hr
      have h2 : rs.2 = Function.update σ a s2 := (congrArg Prod.snd (Option.some.inj hr)).symm
      rw [h2]
      constructor
      · intro id hid
        simp only [handlerIds, List.mem_singleton] at hid
        exact Function.update_noteq hid _ _
      · intro id
        by_cases hcase : id = a
        · subst hcase
          rw [Function.update_same]
          exact Asset.transact_spec hv
        · rw [Function.update_noteq hcase]
          exact instrSameSpec_refl _
  | .maxValue a mv => by
    intro σ cash d rs hr
    rw [handleCash] at hr
    rcases Option.eq_none_or_eq_some (if 0 < cash then
        ((σ a).value d).map fun v =>
          let canContribute := max 0 (mv - v)
          let contribution := min canContribute cash
          (contribution, cash - contribution)
      else some (cash, (0 : ℝ))) with hc | ⟨cr, hc⟩
    · rw [hc] at hr
      exact absurd hr (by simp)
    · rw [hc, Option.some_bind'] at hr
      rcases Option.eq_none_or_eq_some (Asset.transact (σ a) cr.1 d) with hv | ⟨⟨r2, s2⟩, hv⟩
      · rw [hv] at hr
        exact absurd hr (by simp)
      · rw [hv, Option.map_some'] at hr
        have h2 : rs.2 = Function.update σ a s2 := (congrArg Prod.snd (Option.some.inj hr)).symm
        rw [h2]
        constructor
        · intro id hid
          simp only [handlerIds, List.mem_singleton] at hid
          exact Function.update_noteq hid _ _
        · intro id
          by_cases hcase : id = a
          · subst hcase
            rw [Function.update_same]
            exact Asset.transact_spec hv
          · rw [Function.update_noteq hcase]
            exact instrSameSpec_refl _
  | .sequential hs => by
    intro σ cash d rs hr
    rw [handleCash] at hr
    have := handleCashList_frame hs σ cash d rs hr
    exact ⟨fun id hid => this.1 id (by simpa [handlerIds] using hid), this.2⟩

/-- List version of `handleCash_frame`. -/
theorem handleCashList_frame (hs : List CashHandler) :
    ∀ σ cash d rs, handleCashList hs σ cash d = some rs →
      (∀ id, id ∉ handlerIdsList hs → rs.2 id = σ id) ∧
      (∀ id, (rs.2 id).sameSpec (σ id)) :=
  match hs with
  | [] => by
    intro σ cash d rs hr
    rw [handleCashList] at hr
    have h2 : rs.2 = σ := (congrArg Prod.snd (Option.some.inj hr)).symm
    rw [h2]
    exact ⟨fun _ _ => rfl, fun _ => instrSameSpec_refl _⟩
  | h :: t => by
    intro σ cash d rs hr
    rw [handleCashList] at hr
    rcases Option.eq_none_or_eq_some (handleCash h σ cash d) with hv | ⟨rs1, hv⟩
    · rw [hv] at hr
      exact absurd hr (by simp)
    · rw [hv, Option.some_bind'] at hr
      have ih1 := handleCash_frame h σ cash d rs1 hv
      have ih2 := handleCashList_frame t rs1.2 rs1.1 d rs hr
      constructor
      · intro id hid
        simp only [handlerIdsList, List.mem_append] at hid
        push_neg at hid
        exact (ih2.1 id hid.2).trans (ih1.1 id hid.1)
      · intro id
        exact instrSameSpec_trans (ih2.2 id) (ih1.2 id)

end



/-- The loan-payment loop only mutates the liabilities it names, and never
their construction-time fields. -/
lemma liabPayStep_frame :
    ∀ (liabs : List (String × ℕ)) (d : Date) (σl : ℕ → Liability) (out : Output)
      (cash total : ℝ) res,
      liabPayStep liabs d σl out cash total = some res →
      (∀ id, id ∉ liabs.map Prod.snd → res.1 id = σl id) ∧
      (∀ id, (res.1 id).sameSpec (σl id))
  | [], d, σl, out, cash, total, res => by
    intro hr
    rw [liabPayStep] at hr
    have h2 : res.1 = σl := congrArg (fun q => Prod.fst q) (Option.some.inj hr).symm
    rw [h2]
    exact ⟨fun _ _ => rfl, fun _ => liabSameSpec_refl _⟩
  | (name, lid) :: rest, d, σl, out, cash, total, res => by
    intro hr
    rw [liabPayStep] at hr
    rcases Option.eq_none_or_eq_some ((σl lid).minimumMonthly d) with hm | ⟨m, hm⟩
    · rw [hm] at hr
      exact absurd hr (by simp)
    · rw [hm, Option.some_bind'] at hr
      rcases Option.eq_none_or_eq_some ((σl lid).makePayment m d) with hp | ⟨⟨r2, l2⟩, hp⟩
      · rw [hp] at hr
        exact absurd hr (by simp)
      · rw [hp, Option.some_bind'] at hr
        simp only at hr
        split_ifs at hr with hpos
        · have ih := liabPayStep_frame rest d (Function.update σl lid l2) _ _ _ res hr
          constructor
          · intro id hid
            simp only [List.map_cons, List.mem_cons] at hid
            push_neg at hid
            refine (ih.1 id hid.2).trans (Function.update_noteq ?_ _ _)
            exact fun hc => hid.1 (by simp [hc])
          · intro id
            by_cases hcase : id = lid
            · subst hcase
              have hthis := ih.2 id
              rw [Function.update_same] at hthis
              exact liabSameSpec_trans hthis (Liability.makePayment_spec hp)
            · have hthis := ih.2 id
              rwa [Function.update_noteq hcase] at hthis



/-- One orchestrator iteration: the asset store changes only at handler ids,
the liability store only at liability ids, and spec fields never change. -/
lemma processDate_frame {incomes expenses : List (String × Source)}
    {liabs assets : List (String × ℕ)} {handler : Option CashHandler}
    {st : PState} {d : Date} {st2 : PState}
    (h : processDate incomes expenses liabs assets handler st d = some st2) :
    (∀ id, id ∉ optHandlerIds handler → st2.assetStore id = st.assetStore id) ∧
    (∀ id, (st2.assetStore id).sameSpec (st.assetStore id)) ∧
    (∀ id, id ∉ liabs.map Prod.snd → st2.liabStore id = st.liabStore id) ∧
    (∀ id, (st2.liabStore id).sameSpec (st.liabStore id)) := by
  rw [processDate] at h
  rw [Option.bind_eq_some] at h
  obtain ⟨a, ha, h⟩ := h
  try dsimp only at h
  rw [Option.bind_eq_some] at h
  obtain ⟨b, hb, h⟩ := h
  try dsimp only at h
  rw [Option.bind_eq_some] at h
  obtain ⟨c, hc, h⟩ := h
  try dsimp only at h
  rw [Option.bind_eq_some] at h
  obtain ⟨e, he, h⟩ := h
  try dsimp only at h
  rw [Option.bind_eq_some] at h
  obtain ⟨f, hf, h⟩ := h
  try dsimp only at h
  rw [Option.bind_eq_some] at h
  obtain ⟨g, hg, h⟩ := h
  have hst := Option.some.inj h
  have hliab := liabPayStep_frame liabs d st.liabStore b.1 b.2.1 b.2.2 _ hc
  have hasset : (∀ id, id ∉ optHandlerIds handler → e.2 id = st.assetStore id) ∧
      (∀ id, (e.2 id).sameSpec (st.assetStore id)) := by
    cases handler with
    | none =>
      have hq : e.2 = st.assetStore := (congrArg Prod.snd (Option.some.inj he)).symm
      rw [hq]
      exact ⟨fun _ _ => rfl, fun _ => instrSameSpec_refl _⟩
    | some hh =>
      have := handleCash_frame hh st.assetStore _ d _ he
      exact ⟨fun id hid => this.1 id (by simpa [optHandlerIds] using hid), this.2⟩
  refine ⟨?_, ?_, ?_, ?_⟩
  · intro id hid
    rw [← hst]
    exact hasset.1 id hid
  · intro id
    rw [← hst]
    exact hasset.2 id
  · intro id hid
    rw [← hst]
    exact hliab.1 id hid
  · intro id
    rw [← hst]
    exact hliab.2 id



/-- Frame property of the whole date loop. -/
lemma processLoop_frame {incomes expenses : List (String × Source)}
    {liabs assets : List (String × ℕ)} {handler : Option CashHandler} :
    ∀ (ds : List Date) (st st2 : PState),
      processLoop incomes expenses liabs assets handler ds st = some st2 →
      (∀ id, id ∉ optHandlerIds handler → st2.assetStore id = st.assetStore id) ∧
      (∀ id, (st2.assetStore id).sameSpec (st.assetStore id)) ∧
      (∀ id, id ∉ liabs.map Prod.snd → st2.liabStore id = st.liabStore id) ∧
      (∀ id, (st2.liabStore id).sameSpec (st.liabStore id))
  | [], st, st2, h => by
    rw [processLoop] at h
    have hst := Option.some.inj h
    subst hst
    exact ⟨fun _ _ => rfl, fun _ => instrSameSpec_refl _, fun _ _ => rfl,
      fun _ => liabSameSpec_refl _⟩
  | d :: ds, st, st2, h => by
    rw [processLoop, Option.bind_eq_some] at h
    obtain ⟨st1, h1, h2⟩ := h
    have hd := processDate_frame h1
    have hl := processLoop_frame ds st1 st2 h2
    refine ⟨?_, ?_, ?_, ?_⟩
    · intro id hid
      exact (hl.1 id hid).trans (hd.1 id hid)
    · intro id
      exact instrSameSpec_trans (hl.2.1 id) (hd.2.1 id)
    · intro id hid
      exact (hl.2.2.1 id hid).trans (hd.2.2.1 id hid)
    · intro id
      exact liabSameSpec_trans (hl.2.2.2 id) (hd.2.2.2 id)

/-- Pointwise description of the asset reset pass. -/
lemma resetAssets_apply :
    ∀ (assets : List (String × ℕ)) (σ : ℕ → Instr) (id : ℕ),
      resetAssets assets σ id = if id ∈ assets.map Prod.snd then (σ id).reset else σ id
  | [], σ, id => by simp [resetAssets]
  | p :: t, σ, id => by
    rw [resetAssets]
    simp only [List.foldl_cons]
    have ih := resetAssets_apply t (Function.update σ p.2 (σ p.2).reset) id
    rw [resetAssets] at ih
    rw [ih]
    by_cases hmem : id ∈ t.map Prod.snd
    · rw [if_pos hmem, if_pos (by simp [hmem])]
      by_cases hcase : id = p.2
      · subst hcase
        rw [Function.update_same, instrReset_reset]
      · rw [Function.update_noteq hcase]
    · rw [if_neg hmem]
      by_cases hcase : id = p.2
      · subst hcase
        rw [Function.update_same, if_pos (by simp)]
      · rw [Function.update_noteq hcase, if_neg (by simp [hcase, hmem])]

/-- Pointwise description of the liability reset pass. -/
lemma resetLiabs_apply :
    ∀ (liabs : List (String × ℕ)) (σ : ℕ → Liability) (id : ℕ),
      resetLiabs liabs σ id = if id ∈ liabs.map Prod.snd then (σ id).reset else σ id
  | [], σ, id => by simp [resetLiabs]
  | p :: t, σ, id => by
    rw [resetLiabs]
    simp only [List.foldl_cons]
    have ih := resetLiabs_apply t (Function.update σ p.2 (σ p.2).reset) id
    rw [resetLiabs] at ih
    rw [ih]
    by_cases hmem : id ∈ t.map Prod.snd
    · rw [if_pos hmem, if_pos (by simp [hmem])]
      by_cases hcase : id = p.2
      · subst hcase
        rw [Function.update_same, liabReset_reset]
      · rw [Function.update_noteq hcase]
    · rw [if_neg hmem]
      by_cases hcase : id = p.2
      · subst hcase
        rw [Function.update_same, if_pos (by simp)]
      · rw [Function.update_noteq hcase, if_neg (by simp [hcase, hmem])]



/-- Claim C2 (amended): re-running `process` on the final object states gives
the same result, provided every asset the handler references is in the
assets mapping. -/
theorem process_rerun (dates : List Date) (incomes expenses : List (String × Source))
    (liabs assets : List (String × ℕ)) (handler : Option CashHandler)
    (σa : ℕ → Instr) (σl : ℕ → Liability) (st1 : PState)
    (hh : ∀ h, handler = some h → ∀ id, id ∈ handlerIds h → id ∈ assets.map Prod.snd)
    (h1 : process dates incomes expenses liabs assets handler σa σl = some st1) :
    process dates incomes expenses liabs assets handler st1.assetStore st1.liabStore =
      some st1 := by
  rw [process] at h1
  have hframe := processLoop_frame dates _ st1 h1
  have hA : resetAssets assets st1.assetStore = resetAssets assets σa := by
    funext id
    rw [resetAssets_apply, resetAssets_apply]
    by_cases hmem : id ∈ assets.map Prod.snd
    · rw [if_pos hmem, if_pos hmem]
      apply instrReset_congr
      have hs := hframe.2.1 id
      simp only at hs
      rw [resetAssets_apply, if_pos hmem] at hs
      exact instrSameSpec_trans hs (instrReset_sameSpec _)
    · rw [if_neg hmem, if_neg hmem]
      have hnoth : id ∉ optHandlerIds handler := by
        cases handler with
        | none => simp [optHandlerIds]
        | some hcur =>
          intro hmem2
          exact hmem (hh hcur rfl id (by simpa [optHandlerIds] using hmem2))
      have hfr := hframe.1 id hnoth
      simp only at hfr
      rw [resetAssets_apply, if_neg hmem] at hfr
      exact hfr
  have hL : resetLiabs liabs st1.liabStore = resetLiabs liabs σl := by
    funext id
    rw [resetLiabs_apply, resetLiabs_apply]
    by_cases hmem : id ∈ liabs.map Prod.snd
    · rw [if_pos hmem, if_pos hmem]
      apply liabReset_congr
      have hs := hframe.2.2.2 id
      simp only at hs
      rw [resetLiabs_apply, if_pos hmem] at hs
      exact liabSameSpec_trans hs (liabReset_sameSpec _)
    · rw [if_neg hmem, if_neg hmem]
      have hfr := hframe.2.2.1 id hmem
      simp only at hfr
      rw [resetLiabs_apply, if_neg hmem] at hfr
      exact hfr
  rw [process, hA, hL]
  exact h1

/-- Witness for the amended C2: a one-month run with an income source and no
handler, re-run from the final state. -/
theorem process_rerun_witness :
    (∀ h : CashHandler, (none : Option CashHandler) = some h →
      ∀ id, id ∈ handlerIds h → id ∈ ([] : List (String × ℕ)).map Prod.snd) ∧
    process [⟨2020,1,1⟩] [("i", Source.oneTime 100 ⟨2020,1,1⟩)] [] [] [] none
      (fun _ => mkInstr 0 ⟨2020,1,1⟩ 0) (fun _ => mkLiability (-1) ⟨2020,1,1⟩ 1 0) =
      some c2wstate ∧
    process [⟨2020,1,1⟩] [("i", Source.oneTime 100 ⟨2020,1,1⟩)] [] [] [] none
      c2wstate.assetStore c2wstate.liabStore = some c2wstate := by
  have hrun : process [⟨2020,1,1⟩] [("i", Source.oneTime 100 ⟨2020,1,1⟩)] [] [] [] none
      (fun _ => mkInstr 0 ⟨2020,1,1⟩ 0) (fun _ => mkLiability (-1) ⟨2020,1,1⟩ 1 0) =
      some c2wstate := by
    norm_num [process, processLoop, processDate, incomesStep, expensesStep, liabPayStep,
      liabReadStep, assetReadStep, overdraftRecovery, resetLiabs, resetAssets,
      emptyOutput, appendAt, Source.monthlyAmount, Date.mk.injEq, c2wstate,
      PState.mk.injEq, Output.mk.injEq]
  exact ⟨fun h hc => absurd hc (by simp), hrun,
    process_rerun _ _ _ _ _ _ _ _ _ (fun h hc => absurd hc (by simp)) hrun⟩


lemma countName_of_not_mem {n : String} : ∀ {l : List String}, n ∉ l → countName n l = 0
  | [], _ => rfl
  | m :: t, h => by
    rw [countName, countName_of_not_mem (fun hx => h (List.mem_cons_of_mem m hx)),
      if_neg (fun hx : m = n => h (hx ▸ List.mem_cons_self m t))]

lemma countName_of_nodup_mem {n : String} :
    ∀ {l : List String}, l.Nodup → n ∈ l → countName n l = 1
  | [], _, h => absurd h (List.not_mem_nil n)
  | m :: t, hnd, h => by
    rw [countName]
    rcases List.mem_cons.1 h with rfl | hmem
    · rw [countName_of_not_mem (List.nodup_cons.1 hnd).1, if_pos rfl]
    · rw [countName_of_nodup_mem (List.nodup_cons.1 hnd).2 hmem,
        if_neg (fun hx : m = n => (List.nodup_cons.1 hnd).1 (hx ▸ hmem))]

lemma appendAt_length (f : String → List ℝ) (name : String) (x : ℝ) (n : String) :
    (appendAt f name x n).length = (f n).length + (if name = n then 1 else 0) := by
  unfold appendAt
  by_cases hc : n = name
  · subst hc
    rw [Function.update_same, if_pos rfl]
    simp
  · rw [Function.update_noteq hc, if_neg (fun hx => hc hx.symm), Nat.add_zero]

/-- Effect of the income loop on the output series. -/
lemma incomesStep_out :
    ∀ (l : List (String × Source)) (d : Date) (out : Output) (cash tot : ℝ) res,
      incomesStep l d out cash tot = some res →
      (∀ n, (res.1.incomes n).length = (out.incomes n).length + countName n (l.map Prod.fst)) ∧
      res.1.incomesTotal = out.incomesTotal ∧ res.1.expenses = out.expenses ∧
      res.1.expensesTotal = out.expensesTotal ∧ res.1.liabilities = out.liabilities ∧
      res.1.liabilitiesTotal = out.liabilitiesTotal ∧ res.1.assets = out.assets ∧
      res.1.assetsTotal = out.assetsTotal ∧ res.1.cashflow = out.cashflow ∧
      res.1.cashBalance = out.cashBalance ∧ res.1.netWorth = out.netWorth
  | [], d, out, cash, tot, res => by
    intro h
    rw [incomesStep] at h
    have h2 : res.1 = out := congrArg (fun q => Prod.fst q) (Option.some.inj h).symm
    rw [h2]
    simp [countName]
  | (name, src) :: rest, d, out, cash, tot, res => by
    intro h
    rw [incomesStep] at h
    split_ifs at h with hg
    have ih := incomesStep_out rest d _ _ _ res h
    refine ⟨?_, ih.2.1, ih.2.2.1, ih.2.2.2.1, ih.2.2.2.2.1, ih.2.2.2.2.2.1,
      ih.2.2.2.2.2.2.1, ih.2.2.2.2.2.2.2.1, ih.2.2.2.2.2.2.2.2.1,
      ih.2.2.2.2.2.2.2.2.2.1, ih.2.2.2.2.2.2.2.2.2.2⟩
    intro n
    rw [ih.1 n]
    simp only [appendAt_length, List.map_cons, countName]
    omega



/-- Effect of the expense loop on the output series. -/
lemma expensesStep_out :
    ∀ (l : List (String × Source)) (d : Date) (out : Output) (cash tot : ℝ) res,
      expensesStep l d out cash tot = some res →
      (∀ n, (res.1.expenses n).length = (out.expenses n).length + countName n (l.map Prod.fst)) ∧
      res.1.incomes = out.incomes ∧ res.1.incomesTotal = out.incomesTotal ∧
      res.1.expensesTotal = out.expensesTotal ∧ res.1.liabilities = out.liabilities ∧
      res.1.liabilitiesTotal = out.liabilitiesTotal ∧ res.1.assets = out.assets ∧
      res.1.assetsTotal = out.assetsTotal ∧ res.1.cashflow = out.cashflow ∧
      res.1.cashBalance = out.cashBalance ∧ res.1.netWorth = out.netWorth
  | [], d, out, cash, tot, res => by
    intro h
    rw [expensesStep] at h
    have h2 : res.1 = out := congrArg (fun q => Prod.fst q) (Option.some.inj h).symm
    rw [h2]
    simp [countName]
  | (name, src) :: rest, d, out, cash, tot, res => by
    intro h
    rw [expensesStep] at h
    split_ifs at h with hg
    have ih := expensesStep_out rest d _ _ _ res h
    refine ⟨?_, ih.2.1, ih.2.2.1, ih.2.2.2.1, ih.2.2.2.2.1, ih.2.2.2.2.2.1,
      ih.2.2.2.2.2.2.1, ih.2.2.2.2.2.2.2.1, ih.2.2.2.2.2.2.2.2.1,
      ih.2.2.2.2.2.2.2.2.2.1, ih.2.2.2.2.2.2.2.2.2.2⟩
    intro n
    rw [ih.1 n]
    simp only [appendAt_length, List.map_cons, countName]
    omega

/-- Effect of the loan-payment loop on the output series. -/
lemma liabPayStep_out :
    ∀ (liabs : List (String × ℕ)) (d : Date) (σl : ℕ → Liability) (out : Output)
      (cash tot : ℝ) res,
      liabPayStep liabs d σl out cash tot = some res →
      (∀ n, (res.2.1.expenses n).length =
        (out.expenses n).length + countName n (liabs.map Prod.fst)) ∧
      res.2.1.incomes = out.incomes ∧ res.2.1.incomesTotal = out.incomesTotal ∧
      res.2.1.expensesTotal = out.expensesTotal ∧ res.2.1.liabilities = out.liabilities ∧
      res.2.1.liabilitiesTotal = out.liabilitiesTotal ∧ res.2.1.assets = out.assets ∧
      res.2.1.assetsTotal = out.assetsTotal ∧ res.2.1.cashflow = out.cashflow ∧
      res.2.1.cashBalance = out.cashBalance ∧ res.2.1.netWorth = out.netWorth
  | [], d, σl, out, cash, tot, res => by
    intro h
    rw [liabPayStep] at h
    have h2 : res.2.1 = out :=
      congrArg (fun q => q.2.1) (Option.some.inj h).symm
    rw [h2]
    simp [countName]
  | (name, lid) :: rest, d, σl, out, cash, tot, res => by
    intro h
    rw [liabPayStep] at h
    rcases Option.eq_none_or_eq_some ((σl lid).minimumMonthly d) with hm | ⟨m, hm⟩
    · rw [hm] at h
      exact absurd h (by simp)
    rw [hm, Option.some_bind'] at h
    rcases Option.eq_none_or_eq_some ((σl lid).makePayment m d) with hp | ⟨⟨r2, l2⟩, hp⟩
    · rw [hp] at h
      exact absurd h (by simp)
    rw [hp, Option.some_bind'] at h
    simp only at h
    split_ifs at h with hpos
    have ih := liabPayStep_out rest d _ _ _ _ res h
    refine ⟨?_, ih.2.1, ih.2.2.1, ih.2.2.2.1, ih.2.2.2.2.1, ih.2.2.2.2.2.1,
      ih.2.2.2.2.2.2.1, ih.2.2.2.2.2.2.2.1, ih.2.2.2.2.2.2.2.2.1,
      ih.2.2.2.2.2.2.2.2.2.1, ih.2.2.2.2.2.2.2.2.2.2⟩
    intro n
    rw [ih.1 n]
    simp only [appendAt_length, List.map_cons, countName]
    omega

/-- Effect of the liability read-back loop on the output series. -/
lemma liabReadStep_out :
    ∀ (liabs : List (String × ℕ)) (d : Date) (σl : ℕ → Liability) (out : Output)
      (tot : ℝ) res,
      liabReadStep liabs d σl out tot = some res →
      (∀ n, (res.1.liabilities n).length =
        (out.liabilities n).length + countName n (liabs.map Prod.fst)) ∧
      res.1.incomes = out.incomes ∧ res.1.incomesTotal = out.incomesTotal ∧
      res.1.expenses = out.expenses ∧ res.1.expensesTotal = out.expensesTotal ∧
      res.1.liabilitiesTotal = out.liabilitiesTotal ∧ res.1.assets = out.assets ∧
      res.1.assetsTotal = out.assetsTotal ∧ res.1.cashflow = out.cashflow ∧
      res.1.cashBalance = out.cashBalance ∧ res.1.netWorth = out.netWorth
  | [], d, σl, out, tot, res => by
    intro h
    rw [liabReadStep] at h
    have h2 : res.1 = out := congrArg (fun q => Prod.fst q) (Option.some.inj h).symm
    rw [h2]
    simp [countName]
  | (name, lid) :: rest, d, σl, out, tot, res => by
    intro h
    rw [liabReadStep] at h
    rcases Option.eq_none_or_eq_some ((σl lid).instr.value d) with hv | ⟨v, hv⟩
    · rw [hv] at h
      exact absurd h (by simp)
    rw [hv, Option.some_bind'] at h
    split_ifs at h with hs
    have ih := liabReadStep_out rest d _ _ _ res h
    refine ⟨?_, ih.2.1, ih.2.2.1, ih.2.2.2.1, ih.2.2.2.2.1, ih.2.2.2.2.2.1,
      ih.2.2.2.2.2.2.1, ih.2.2.2.2.2.2.2.1, ih.2.2.2.2.2.2.2.2.1,
      ih.2.2.2.2.2.2.2.2.2.1, ih.2.2.2.2.2.2.2.2.2.2⟩
    intro n
    rw [ih.1 n]
    simp only [appendAt_length, List.map_cons, countName]
    omega

/-- Effect of the asset read-back loop on the output series. -/
lemma assetReadStep_out :
    ∀ (assets : List (String × ℕ)) (d : Date) (σa : ℕ → Instr) (out : Output)
      (tot : ℝ) res,
      assetReadStep assets d σa out tot = some res →
      (∀ n, (res.1.assets n).length =
        (out.assets n).length + countName n (assets.map Prod.fst)) ∧
      res.1.incomes = out.incomes ∧ res.1.incomesTotal = out.incomesTotal ∧
      res.1.expenses = out.expenses ∧ res.1.expensesTotal = out.expensesTotal ∧
      res.1.liabilities = out.liabilities ∧ res.1.liabilitiesTotal = out.liabilitiesTotal ∧
      res.1.assetsTotal = out.assetsTotal ∧ res.1.cashflow = out.cashflow ∧
      res.1.cashBalance = out.cashBalance ∧ res.1.netWorth = out.netWorth
  | [], d, σa, out, tot, res => by
    intro h
    rw [assetReadStep] at h
    have h2 : res.1 = out := congrArg (fun q => Prod.fst q) (Option.some.inj h).symm
    rw [h2]
    simp [countName]
  | (name, aid) :: rest, d, σa, out, tot, res => by
    intro h
    rw [assetReadStep] at h
    rcases Option.eq_none_or_eq_some ((σa aid).value d) with hv | ⟨v, hv⟩
    · rw [hv] at h
      exact absurd h (by simp)
    rw [hv, Option.some_bind'] at h
    split_ifs at h with hs
    have ih := assetReadStep_out rest d _ _ _ res h
    refine ⟨?_, ih.2.1, ih.2.2.1, ih.2.2.2.1, ih.2.2.2.2.1, ih.2.2.2.2.2.1,
      ih.2.2.2.2.2.2.1, ih.2.2.2.2.2.2.2.1, ih.2.2.2.2.2.2.2.2.1,
      ih.2.2.2.2.2.2.2.2.2.1, ih.2.2.2.2.2.2.2.2.2.2⟩
    intro n
    rw [ih.1 n]
    simp only [appendAt_length, List.map_cons, countName]
    omega



/-- Per-iteration growth of every output series. -/
lemma processDate_lengths {incomes expenses : List (String × Source)}
    {liabs assets : List (String × ℕ)} {handler : Option CashHandler}
    {st : PState} {d : Date} {st2 : PState}
    (h : processDate incomes expenses liabs assets handler st d = some st2) :
    (∀ n, (st2.out.incomes n).length =
      (st.out.incomes n).length + countName n (incomes.map Prod.fst)) ∧
    (∀ n, (st2.out.expenses n).length = (st.out.expenses n).length +
      countName n (expenses.map Prod.fst) + countName n (liabs.map Prod.fst)) ∧
    (∀ n, (st2.out.liabilities n).length =
      (st.out.liabilities n).length + countName n (liabs.map Prod.fst)) ∧
    (∀ n, (st2.out.assets n).length =
      (st.out.assets n).length + countName n (assets.map Prod.fst)) ∧
    st2.out.incomesTotal.length = st.out.incomesTotal.length + 1 ∧
    st2.out.expensesTotal.length = st.out.expensesTotal.length + 1 ∧
    st2.out.liabilitiesTotal.length = st.out.liabilitiesTotal.length + 1 ∧
    st2.out.assetsTotal.length = st.out.assetsTotal.length + 1 ∧
    st2.out.cashflow.length = st.out.cashflow.length + 1 ∧
    st2.out.cashBalance.length = st.out.cashBalance.length + 1 ∧
    st2.out.netWorth.length = st.out.netWorth.length + 1 := by
  rw [processDate] at h
  rw [Option.bind_eq_some] at h
  obtain ⟨a, ha, h⟩ := h
  try dsimp only at h
  rw [Option.bind_eq_some] at h
  obtain ⟨b, hb, h⟩ := h
  try dsimp only at h
  rw [Option.bind_eq_some] at h
  obtain ⟨c, hc, h⟩ := h
  try dsimp only at h
  rw [Option.bind_eq_some] at h
  obtain ⟨e, he, h⟩ := h
  try dsimp only at h
  rw [Option.bind_eq_some] at h
  obtain ⟨f, hf, h⟩ := h
  try dsimp only at h
  rw [Option.bind_eq_some] at h
  obtain ⟨g, hg, h⟩ := h
  have hI := incomesStep_out incomes d st.out 0 0 a ha
  have hE := expensesStep_out expenses d _ _ _ b hb
  have hP := liabPayStep_out liabs d st.liabStore _ _ _ c hc
  have hR := liabReadStep_out liabs d c.1 _ _ f hf
  have hA := assetReadStep_out assets d e.2 _ _ g hg
  rw [← Option.some.inj h]
  refine ⟨?_, ?_, ?_, ?_, ?_, ?_, ?_, ?_, ?_, ?_, ?_⟩
  · intro n
    show (g.1.incomes n).length = _
    have k5 : g.1.incomes = f.1.incomes := hA.2.1
    have k4 : f.1.incomes = c.2.1.incomes := hR.2.1
    have k3 : c.2.1.incomes = b.1.incomes := hP.2.1
    have k2 : b.1.incomes = a.1.incomes := hE.2.1
    rw [k5, k4, k3, k2]
    exact hI.1 n
  · intro n
    show (g.1.expenses n).length = _
    have k5 : g.1.expenses = f.1.expenses := hA.2.2.2.1
    have k4 : f.1.expenses = c.2.1.expenses := hR.2.2.2.1
    have k3 := hP.1 n
    have k2 := hE.1 n
    have k1 : a.1.expenses = st.out.expenses := hI.2.2.1
    rw [k5, k4, k3, k2, k1]
  · intro n
    show (g.1.liabilities n).length = _
    have k5 : g.1.liabilities = f.1.liabilities := hA.2.2.2.2.2.1
    have k4 := hR.1 n
    have k3 : c.2.1.liabilities = b.1.liabilities := hP.2.2.2.2.1
    have k2 : b.1.liabilities = a.1.liabilities := hE.2.2.2.2.1
    have k1 : a.1.liabilities = st.out.liabilities := hI.2.2.2.2.1
    rw [k5, k4, k3, k2, k1]
  · intro n
    show (g.1.assets n).length = _
    have k5 := hA.1 n
    have k4 : f.1.assets = c.2.1.assets := hR.2.2.2.2.2.2.1
    have k3 : c.2.1.assets = b.1.assets := hP.2.2.2.2.2.2.1
    have k2 : b.1.assets = a.1.assets := hE.2.2.2.2.2.2.1
    have k1 : a.1.assets = st.out.assets := hI.2.2.2.2.2.2.1
    rw [k5, k4, k3, k2, k1]
  · show (g.1.incomesTotal).length = _
    have k5 : g.1.incomesTotal = f.1.incomesTotal := hA.2.2.1
    have k4 : f.1.incomesTotal = c.2.1.incomesTotal := hR.2.2.1
    have k3 : c.2.1.incomesTotal = b.1.incomesTotal := hP.2.2.1
    have k2 : b.1.incomesTotal = a.1.incomesTotal ++ [a.2.2] := hE.2.2.1
    have k1 : a.1.incomesTotal = st.out.incomesTotal := hI.2.1
    rw [k5, k4, k3, k2, k1]
    simp
  · show (g.1.expensesTotal).length = _
    have k5 : g.1.expensesTotal = f.1.expensesTotal := hA.2.2.2.2.1
    have k4 : f.1.expensesTotal = c.2.1.expensesTotal ++ [c.2.2.2] := hR.2.2.2.2.1
    have k3 : c.2.1.expensesTotal = b.1.expensesTotal := hP.2.2.2.1
    have k2 : b.1.expensesTotal = a.1.expensesTotal := hE.2.2.2.1
    have k1 : a.1.expensesTotal = st.out.expensesTotal := hI.2.2.2.1
    rw [k5, k4, k3, k2, k1]
    simp
  · show (g.1.liabilitiesTotal).length = _
    have k5 : g.1.liabilitiesTotal = f.1.liabilitiesTotal ++ [f.2] := hA.2.2.2.2.2.2.1
    have k4 : f.1.liabilitiesTotal = c.2.1.liabilitiesTotal := hR.2.2.2.2.2.1
    have k3 : c.2.1.liabilitiesTotal = b.1.liabilitiesTotal := hP.2.2.2.2.2.1
    have k2 : b.1.liabilitiesTotal = a.1.liabilitiesTotal := hE.2.2.2.2.2.1
    have k1 : a.1.liabilitiesTotal = st.out.liabilitiesTotal := hI.2.2.2.2.2.1
    rw [k5, k4, k3, k2, k1]
    simp
  · show (g.1.assetsTotal ++ [g.2]).length = _
    have k5 : g.1.assetsTotal = f.1.assetsTotal := hA.2.2.2.2.2.2.2.1
    have k4 : f.1.assetsTotal = c.2.1.assetsTotal := hR.2.2.2.2.2.2.2.1
    have k3 : c.2.1.assetsTotal = b.1.assetsTotal := hP.2.2.2.2.2.2.2.1
    have k2 : b.1.assetsTotal = a.1.assetsTotal := hE.2.2.2.2.2.2.2.1
    have k1 : a.1.assetsTotal = st.out.assetsTotal := hI.2.2.2.2.2.2.2.1
    rw [k5, k4, k3, k2, k1]
    simp
  · show (g.1.cashflow).length = _
    have k5 : g.1.cashflow = f.1.cashflow := hA.2.2.2.2.2.2.2.2.1
    have k4 : f.1.cashflow = c.2.1.cashflow ++ [c.2.2.1] := hR.2.2.2.2.2.2.2.2.1
    have k3 : c.2.1.cashflow = b.1.cashflow := hP.2.2.2.2.2.2.2.2.1
    have k2 : b.1.cashflow = a.1.cashflow := hE.2.2.2.2.2.2.2.2.1
    have k1 : a.1.cashflow = st.out.cashflow := hI.2.2.2.2.2.2.2.2.1
    rw [k5, k4, k3, k2, k1]
    simp
  · show (g.1.cashBalance).length = _
    have k5 : g.1.cashBalance = f.1.cashBalance := hA.2.2.2.2.2.2.2.2.2.1
    have k4 : f.1.cashBalance = c.2.1.cashBalance ++
        [(overdraftRecovery c.2.2.1 st.cashBalance).2 + e.1] := hR.2.2.2.2.2.2.2.2.2.1
    have k3 : c.2.1.cashBalance = b.1.cashBalance := hP.2.2.2.2.2.2.2.2.2.1
    have k2 : b.1.cashBalance = a.1.cashBalance := hE.2.2.2.2.2.2.2.2.2.1
    have k1 : a.1.cashBalance = st.out.cashBalance := hI.2.2.2.2.2.2.2.2.2.1
    rw [k5, k4, k3, k2, k1]
    simp
  · show (g.1.netWorth ++ [_]).length = _
    have k5 : g.1.netWorth = f.1.netWorth := hA.2.2.2.2.2.2.2.2.2.2
    have k4 : f.1.netWorth = c.2.1.netWorth := hR.2.2.2.2.2.2.2.2.2.2
    have k3 : c.2.1.netWorth = b.1.netWorth := hP.2.2.2.2.2.2.2.2.2.2
    have k2 : b.1.netWorth = a.1.netWorth := hE.2.2.2.2.2.2.2.2.2.2
    have k1 : a.1.netWorth = st.out.netWorth := hI.2.2.2.2.2.2.2.2.2.2
    rw [k5, k4, k3, k2, k1]
    simp



/-- Growth of every output series over the whole date loop. -/
lemma processLoop_lengths {incomes expenses : List (String × Source)}
    {liabs assets : List (String × ℕ)} {handler : Option CashHandler} :
    ∀ (ds : List Date) (st st2 : PState),
      processLoop incomes expenses liabs assets handler ds st = some st2 →
      (∀ n, (st2.out.incomes n).length =
        (st.out.incomes n).length + ds.length * countName n (incomes.map Prod.fst)) ∧
      (∀ n, (st2.out.expenses n).length = (st.out.expenses n).length +
        ds.length * (countName n (expenses.map Prod.fst) + countName n (liabs.map Prod.fst))) ∧
      (∀ n, (st2.out.liabilities n).length =
        (st.out.liabilities n).length + ds.length * countName n (liabs.map Prod.fst)) ∧
      (∀ n, (st2.out.assets n).length =
        (st.out.assets n).length + ds.length * countName n (assets.map Prod.fst)) ∧
      st2.out.incomesTotal.length = st.out.incomesTotal.length + ds.length ∧
      st2.out.expensesTotal.length = st.out.expensesTotal.length + ds.length ∧
      st2.out.liabilitiesTotal.length = st.out.liabilitiesTotal.length + ds.length ∧
      st2.out.assetsTotal.length = st.out.assetsTotal.length + ds.length ∧
      st2.out.cashflow.length = st.out.cashflow.length + ds.length ∧
      st2.out.cashBalance.length = st.out.cashBalance.length + ds.length ∧
      st2.out.netWorth.length = st.out.netWorth.length + ds.length
  | [], st, st2, h => by
    rw [processLoop] at h
    rw [← Option.some.inj h]
    simp
  | d :: ds, st, st2, h => by
    rw [processLoop, Option.bind_eq_some] at h
    obtain ⟨st1, h1, h2⟩ := h
    have hd := processDate_lengths h1
    have hl := processLoop_lengths ds st1 st2 h2
    simp only [List.length_cons]
    refine ⟨?_, ?_, ?_, ?_, ?_, ?_, ?_, ?_, ?_, ?_, ?_⟩
    · intro n
      have := hl.1 n
      rw [hd.1 n] at this
      rw [this]
      ring
    · intro n
      have := hl.2.1 n
      rw [hd.2.1 n] at this
      rw [this]
      ring
    · intro n
      have := hl.2.2.1 n
      rw [hd.2.2.1 n] at this
      rw [this]
      ring
    · intro n
      have := hl.2.2.2.1 n
      rw [hd.2.2.2.1 n] at this
      rw [this]
      ring
    · have := hl.2.2.2.2.1
      rw [hd.2.2.2.2.1] at this
      omega
    · have := hl.2.2.2.2.2.1
      rw [hd.2.2.2.2.2.1] at this
      omega
    · have := hl.2.2.2.2.2.2.1
      rw [hd.2.2.2.2.2.2.1] at this
      omega
    · have := hl.2.2.2.2.2.2.2.1
      rw [hd.2.2.2.2.2.2.2.1] at this
      omega
    · have := hl.2.2.2.2.2.2.2.2.1
      rw [hd.2.2.2.2.2.2.2.2.1] at this
      omega
    · have := hl.2.2.2.2.2.2.2.2.2.1
      rw [hd.2.2.2.2.2.2.2.2.2.1] at this
      omega
    · have := hl.2.2.2.2.2.2.2.2.2.2
      rw [hd.2.2.2.2.2.2.2.2.2.2] at this
      omega



/-- Claim C6 (amended): with expense-source names disjoint from liability
names, every per-name series and every aggregate series has exactly one
entry per input date. -/
theorem output_alignment (dates : List Date) (incomes expenses : List (String × Source))
    (liabs assets : List (String × ℕ)) (handler : Option CashHandler)
    (σa : ℕ → Instr) (σl : ℕ → Liability) (st : PState)
    (hrun : process dates incomes expenses liabs assets handler σa σl = some st)
    (hdisj : ∀ n, n ∈ expenses.map Prod.fst → n ∉ liabs.map Prod.fst)
    (hinc : (incomes.map Prod.fst).Nodup) (hexp : (expenses.map Prod.fst).Nodup)
    (hliab : (liabs.map Prod.fst).Nodup) (hass : (assets.map Prod.fst).Nodup) :
    (∀ n ∈ incomes.map Prod.fst, (st.out.incomes n).length = dates.length) ∧
    (∀ n ∈ expenses.map Prod.fst, (st.out.expenses n).length = dates.length) ∧
    (∀ n ∈ liabs.map Prod.fst, (st.out.expenses n).length = dates.length) ∧
    (∀ n ∈ liabs.map Prod.fst, (st.out.liabilities n).length = dates.length) ∧
    (∀ n ∈ assets.map Prod.fst, (st.out.assets n).length = dates.length) ∧
    st.out.incomesTotal.length = dates.length ∧
    st.out.expensesTotal.length = dates.length ∧
    st.out.liabilitiesTotal.length = dates.length ∧
    st.out.assetsTotal.length = dates.length ∧
    st.out.cashflow.length = dates.length ∧
    st.out.cashBalance.length = dates.length ∧
    st.out.netWorth.length = dates.length := by
  rw [process] at hrun
  have hl := processLoop_lengths dates _ st hrun
  refine ⟨?_, ?_, ?_, ?_, ?_, ?_, ?_, ?_, ?_, ?_, ?_, ?_⟩
  · intro n hn
    have := hl.1 n
    rw [countName_of_nodup_mem hinc hn] at this
    simpa [emptyOutput] using this
  · intro n hn
    have := hl.2.1 n
    rw [countName_of_nodup_mem hexp hn, countName_of_not_mem (hdisj n hn)] at this
    simpa [emptyOutput] using this
  · intro n hn
    have hnexp : n ∉ expenses.map Prod.fst := fun hc => (hdisj n hc) hn
    have := hl.2.1 n
    rw [countName_of_nodup_mem hliab hn, countName_of_not_mem hnexp] at this
    simpa [emptyOutput] using this
  · intro n hn
    have := hl.2.2.1 n
    rw [countName_of_nodup_mem hliab hn] at this
    simpa [emptyOutput] using this
  · intro n hn
    have := hl.2.2.2.1 n
    rw [countName_of_nodup_mem hass hn] at this
    simpa [emptyOutput] using this
  · simpa [emptyOutput] using hl.2.2.2.2.1
  · simpa [emptyOutput] using hl.2.2.2.2.2.1
  · simpa [emptyOutput] using hl.2.2.2.2.2.2.1
  · simpa [emptyOutput] using hl.2.2.2.2.2.2.2.1
  · simpa [emptyOutput] using hl.2.2.2.2.2.2.2.2.1
  · simpa [emptyOutput] using hl.2.2.2.2.2.2.2.2.2.1
  · simpa [emptyOutput] using hl.2.2.2.2.2.2.2.2.2.2

/-- Witness for the amended C6 on a concrete (empty) run. -/
theorem output_alignment_witness :
    process [] [] [] [] [] none (fun _ => mkInstr 0 ⟨2020,1,1⟩ 0)
      (fun _ => mkLiability (-1) ⟨2020,1,1⟩ 1 0) =
      some ⟨fun _ => mkInstr 0 ⟨2020,1,1⟩ 0, fun _ => mkLiability (-1) ⟨2020,1,1⟩ 1 0,
        emptyOutput, 0⟩ ∧
    (⟨fun _ => mkInstr 0 ⟨2020,1,1⟩ 0, fun _ => mkLiability (-1) ⟨2020,1,1⟩ 1 0,
        emptyOutput, 0⟩ : PState).out.cashBalance.length = ([] : List Date).length := by
  have hrun : process [] [] [] [] [] none (fun _ => mkInstr 0 ⟨2020,1,1⟩ 0)
      (fun _ => mkLiability (-1) ⟨2020,1,1⟩ 1 0) =
      some ⟨fun _ => mkInstr 0 ⟨2020,1,1⟩ 0, fun _ => mkLiability (-1) ⟨2020,1,1⟩ 1 0,
        emptyOutput, 0⟩ := rfl
  refine ⟨hrun, ?_⟩
  exact (output_alignment [] [] [] [] [] none _ _ _ hrun
    (fun n hn => absurd hn (by simp)) (by simp) (by simp) (by simp) (by simp)).2.2.2.2.2.2.2.2.2.2.1

end FinPlan
